import Mathlib

set_option linter.unusedVariables false

/-! Shallow Lean embedding of the Asterisk framehook pipeline (main/framehook.c)
and of the DSP digit / busy / call-progress engine (the dsp source file), with
theorems checking the specification claims against the embedded code.

Frame pointers are modelled by their identity as a natural number (0 = NULL);
a callback substituting the frame returns a different number. Event and destroy
callbacks are pure functions, and every observable callback invocation made by
the framehook core is recorded in a trace. -/

/-- Event kinds delivered to a framehook callback (enum ast_framehook_event). -/
inductive FhEvent
  | ATTACHED
  | DETACHED
  | READ
  | WRITE
deriving DecidableEq, Repr

/-- One observable callback invocation made by the framehook core: either an
event callback (hook id, event kind, frame pointer argument) or a destroy
callback (hook id). -/
inductive Call
  | event (id : Nat) (ev : FhEvent) (frame : Nat)
  | destroy (id : Nat)
deriving DecidableEq, Repr

/-- struct ast_framehook: the id, the deferred-destruction flag and the copied
interface (event callback plus optional destroy callback). The channel
back-pointer is not modelled; the event callback is a pure function from event
kind and incoming frame pointer to returned frame pointer. -/
structure Hook where
  id : Nat
  detach_and_destroy_me : Bool
  hasDestroy : Bool
  cb : FhEvent → Nat → Nat

/-- struct ast_framehook_list: the hook count, the monotone id counter and the
ordered hook entries (insertion order = dispatch order). -/
structure FhList where
  count : Nat
  id_count : Nat
  hooks : List Hook

/-- framehook_detach_and_destroy: the calls it makes, in order - the DETACHED
event callback with a NULL frame, then the optional destroy callback. -/
def destroyCalls (h : Hook) : List Call :=
  Call.event h.id FhEvent.DETACHED 0 :: (if h.hasDestroy then [Call.destroy h.id] else [])

/-- Result of one traversal pass of the do-while loop in
framehook_list_push_event: the surviving hooks, the skip array, the frame
variable at pass exit, the trace of calls made, and whether the pass ended by
the frame-substitution break. -/
structure PassOut where
  hooks : List Hook
  skip : List Bool
  frame : Nat
  trace : List Call
  subst : Bool

/-- One AST_LIST_TRAVERSE_SAFE pass of framehook_list_push_event (lines 95-119):
hooks flagged detach_and_destroy_me are removed and destroyed inline (num is not
advanced), hooks whose skip slot is set are skipped (num advanced), otherwise
the event callback is invoked on the current frame; if it returns a frame
different from the frame that entered the pass (orig) the hook's skip slot is
set and the traversal breaks, else num advances and traversal continues. -/
def passRun (ev : FhEvent) (orig : Nat) : List Hook → List Bool → Nat → Nat → PassOut
  | [], skip, _num, frame => ⟨[], skip, frame, [], false⟩
  | h :: rest, skip, num, frame =>
    if h.detach_and_destroy_me then
      let r := passRun ev orig rest skip num frame
      ⟨r.hooks, r.skip, r.frame, destroyCalls h ++ r.trace, r.subst⟩
    else if skip.getD num false then
      let r := passRun ev orig rest skip (num + 1) frame
      ⟨h :: r.hooks, r.skip, r.frame, r.trace, r.subst⟩
    else if h.cb ev frame = orig then
      let r := passRun ev orig rest skip (num + 1) (h.cb ev frame)
      ⟨h :: r.hooks, r.skip, r.frame, Call.event h.id ev frame :: r.trace, r.subst⟩
    else
      ⟨h :: rest, skip.set num true, h.cb ev frame, [Call.event h.id ev frame], true⟩

/-- Result of the whole do-while loop: the final hooks, skip array, frame,
accumulated trace, and the number of passes executed. -/
structure LoopOut where
  hooks : List Hook
  skip : List Bool
  frame : Nat
  trace : List Call
  passes : Nat

/-- The do-while loop of framehook_list_push_event: repeat passes while the
pass ended with a substituted frame. Fuel bounds the number of passes; the
caller supplies enough fuel (proved sufficient below), and exhaustion yields
none. -/
def pushLoop (ev : FhEvent) : Nat → List Hook → List Bool → Nat → Option LoopOut
  | 0, _, _, _ => none
  | fuel + 1, hooks, skip, frame =>
    let r := passRun ev frame hooks skip 0 frame
    if r.subst then
      match pushLoop ev fuel r.hooks r.skip r.frame with
      | none => none
      | some l => some ⟨l.hooks, l.skip, l.frame, r.trace ++ l.trace, l.passes + 1⟩
    else
      some ⟨r.hooks, r.skip, r.frame, r.trace, 1⟩

/-- Result of framehook_list_push_event: the updated framehook list (the count
and id counter are untouched by the source), the returned frame, the trace of
callback invocations, and the number of do-while passes. -/
structure PushOut where
  fl : Option FhList
  frame : Nat
  trace : List Call
  passes : Nat

/-- framehook_list_push_event (lines 76-123): a NULL list returns the frame
unchanged; otherwise a skip array of size count is zeroed and the do-while
traversal loop runs. The fuel count + 1 is proved sufficient for every
reachable list (active hooks never exceed count). -/
def framehook_list_push_event (fl : Option FhList) (frame : Nat) (ev : FhEvent) :
    Option PushOut :=
  match fl with
  | none => some ⟨none, frame, [], 0⟩
  | some st =>
    match pushLoop ev (st.count + 1) st.hooks (List.replicate st.count false) frame with
    | none => none
    | some l => some ⟨some { st with hooks := l.hooks }, l.frame, l.trace, l.passes⟩

/-- struct ast_framehook_interface: version tag, whether event_cb is non-NULL,
the event callback, and whether a destroy callback is supplied. -/
structure FhInterface where
  version : Nat
  has_event_cb : Bool
  cb : FhEvent → Nat → Nat
  hasDestroy : Bool

/-- Modelled from the spec: AST_FRAMEHOOK_INTERFACE_VERSION, the version
constant the attach call requires exactly (the framehook.h header is not in the
sampled sources; the concrete value is irrelevant, only the exact-match test). -/
def AST_FRAMEHOOK_INTERFACE_VERSION : Nat := 1

/-- ast_framehook_attach (lines 125-164): version mismatch or a NULL event_cb
fails with -1; otherwise the list is created lazily, count is incremented, the
id counter is pre-incremented to yield the new id, the hook is appended at the
tail, and the ATTACHED event is delivered synchronously. Allocation failure is
not modelled. Returns (result, new list state, calls made). -/
def ast_framehook_attach (fl : Option FhList) (i : FhInterface) :
    Int × Option FhList × List Call :=
  if i.version ≠ AST_FRAMEHOOK_INTERFACE_VERSION then (-1, fl, [])
  else if !i.has_event_cb then (-1, fl, [])
  else
    let st := fl.getD ⟨0, 0, []⟩
    let newId := st.id_count + 1
    let hook : Hook := ⟨newId, false, i.hasDestroy, i.cb⟩
    ((newId : Int),
      some ⟨st.count + 1, newId, st.hooks ++ [hook]⟩,
      [Call.event newId FhEvent.ATTACHED 0])

/-- The list traversal of ast_framehook_detach (lines 175-186): find the first
entry with the requested id, set its detach_and_destroy_me flag and stop with
result 0; if no entry matches, result stays -1 and the list is unchanged. -/
def detachList : List Hook → Nat → Int × List Hook
  | [], _ => (-1, [])
  | h :: t, i =>
    if h.id = i then (0, { h with detach_and_destroy_me := true } :: t)
    else
      let r := detachList t i
      (r.1, h :: r.2)

/-- ast_framehook_detach (lines 166-189): a channel without a framehook list
returns -1; otherwise the first matching entry is flagged. The function invokes
no callbacks and frees nothing, so its call trace is empty by the source. -/
def ast_framehook_detach (fl : Option FhList) (id : Nat) :
    Int × Option FhList × List Call :=
  match fl with
  | none => (-1, none, [])
  | some st =>
    let r := detachList st.hooks id
    (r.1, some { st with hooks := r.2 }, [])

/-- Call trace of destroying every hook of a list in order (the traversal body
of ast_framehook_list_destroy). -/
def destroyAll : List Hook → List Call
  | [] => []
  | h :: t => destroyCalls h ++ destroyAll t

/-- ast_framehook_list_destroy (lines 191-206): every entry is removed and
destroy-detached in order, the list is freed and the channel pointer nulled. -/
def ast_framehook_list_destroy (fl : Option FhList) : Option FhList × List Call :=
  match fl with
  | none => (none, [])
  | some st => (none, destroyAll st.hooks)

/-- Number of hooks in the list not flagged for detachment. -/
def activeCount (hooks : List Hook) : Nat :=
  hooks.countP (fun h => !h.detach_and_destroy_me)

/-- Operations a channel's owner may perform on its framehook list during the
channel's lifetime (list teardown ends the lifetime and is modelled separately
by ast_framehook_list_destroy). -/
inductive FhOp
  | attach (i : FhInterface)
  | detach (id : Nat)
  | push (frame : Nat) (ev : FhEvent)

/-- Execute a sequence of framehook operations from a given list state,
collecting the ids returned by the successful attach calls in order. A push
whose fuel is exhausted (unreachable from reachable states) leaves the state
unchanged. -/
def runOps : List FhOp → Option FhList → Option FhList × List Nat
  | [], fl => (fl, [])
  | FhOp.attach i :: rest, fl =>
    let a := ast_framehook_attach fl i
    let r := runOps rest a.2.1
    (r.1, if a.1 = -1 then r.2 else a.1.toNat :: r.2)
  | FhOp.detach id :: rest, fl =>
    runOps rest (ast_framehook_detach fl id).2.1
  | FhOp.push frame ev :: rest, fl =>
    match framehook_list_push_event fl frame ev with
    | none => runOps rest fl
    | some out => runOps rest out.fl

/-- The id counter of an optional framehook list (0 when the list does not yet
exist, as the list is calloc-zeroed on creation). -/
def flIdCount : Option FhList → Nat
  | none => 0
  | some st => st.id_count

/-- Weight of a call among the pending destroy traces of a hook list: how many
times the call would be emitted by destroying every currently flagged hook. -/
def dwsum (c : Call) : List Hook → Nat
  | [] => 0
  | h :: t => (if h.detach_and_destroy_me then (destroyCalls h).count c else 0) + dwsum c t

/-- The hook id a call refers to. -/
def callHookId : Call → Nat
  | Call.event i _ _ => i
  | Call.destroy i => i

/-- Scenario hook A: identity callback, id 1. -/
def hookA : Hook := ⟨1, false, false, fun _ f => f⟩

/-- Scenario hook B: substitutes frame 10 by frame 20, id 2. -/
def hookB : Hook := ⟨2, false, false, fun _ f => if f = 10 then 20 else f⟩

/-- Scenario hook C: identity callback, id 3. -/
def hookC : Hook := ⟨3, false, false, fun _ f => f⟩

/-- Scenario list with hooks A, B, C attached in that order. -/
def c1List : FhList := ⟨3, 3, [hookA, hookB, hookC]⟩

/-- A hook whose callback substitutes every incoming frame, id 1. -/
def hookSub : Hook := ⟨1, false, false, fun _ f => f + 1⟩

/-- One-hook list for the pass-count counterexample. -/
def c7List : FhList := ⟨1, 1, [hookSub]⟩

/-- A list where hook id 1 is flagged for detachment (and has a destroy
callback) while hook id 2 is live. -/
def c2List : FhList :=
  ⟨2, 2, [⟨1, true, true, fun _ f => f⟩, ⟨2, false, false, fun _ f => f⟩]⟩

/-- Interface used by the concrete scenarios: correct version, identity event
callback, no destroy callback. -/
def idIface : FhInterface := ⟨AST_FRAMEHOOK_INTERFACE_VERSION, true, fun _ f => f, false⟩

/-- Attach two hooks to an empty channel, detach id 1, dispatch one frame. -/
def c9Ops : List FhOp :=
  [FhOp.attach idIface, FhOp.attach idIface, FhOp.detach 1, FhOp.push 10 FhEvent.READ]

/-! Embedding of the DSP engine (digit queues, silence/busy detector and the
call-progress classifier). The Goertzel filter states, block energies and the
per-block float threshold comparisons are floating point and are abstracted:
only their boolean outcome (which classification branch fires) enters the
state machines, supplied as input. -/

/-- MAX_DTMF_DIGITS, the digit queue capacity from the dsp source. -/
def MAX_DTMF_DIGITS : Nat := 128

/-- Digit-queue bookkeeping fields of dtmf_detect_state_t. The digits buffer is
modelled as the list of currently queued characters, whose length is the C
current_digits counter (the source keeps digits NUL-terminated at that index).
Goertzel states, energies and hit history are omitted (floating point or not
needed by the queue claims). -/
structure dtmf_detect_state where
  mhit : Nat
  digits : List Char
  detected_digits : Nat
  lost_digits : Nat
deriving DecidableEq, Repr

/-- Digit-queue bookkeeping fields of mf_detect_state_t (same modelling as the
DTMF state). -/
structure mf_detect_state where
  mhit : Nat
  digits : List Char
  detected_digits : Nat
  lost_digits : Nat
deriving DecidableEq, Repr

/-- The confirmed-digit bookkeeping of dtmf_detect (lines 493-507), executed
once a hit is confirmed by the debounce test: record mhit, count the detection,
and append the digit to the queue when fewer than MAX_DTMF_DIGITS characters
are queued, otherwise drop it and count it in lost_digits. -/
def dtmf_store_digit (s : dtmf_detect_state) (hit : Char) : dtmf_detect_state :=
  { s with
    mhit := hit.toNat
    detected_digits := s.detected_digits + 1
    digits := if s.digits.length < MAX_DTMF_DIGITS then s.digits ++ [hit] else s.digits
    lost_digits := if s.digits.length < MAX_DTMF_DIGITS then s.lost_digits else s.lost_digits + 1 }

/-- The confirmed-digit bookkeeping of mf_detect (lines 732-743): identical to
the DTMF case except that the capacity test is against MAX_DTMF_DIGITS - 2. -/
def mf_store_digit (s : mf_detect_state) (hit : Char) : mf_detect_state :=
  { s with
    mhit := hit.toNat
    detected_digits := s.detected_digits + 1
    digits := if s.digits.length < MAX_DTMF_DIGITS - 2 then s.digits ++ [hit] else s.digits
    lost_digits := if s.digits.length < MAX_DTMF_DIGITS - 2 then s.lost_digits else s.lost_digits + 1 }

/-- The td union of struct ast_dsp, modelled as a tagged sum. The C union is
read through the member selected by the digitmode MF bit; reading it through
the other member reinterprets memory and is modelled as failure. -/
inductive TdUnion
  | dtmf (s : dtmf_detect_state)
  | mf (s : mf_detect_state)
deriving DecidableEq, Repr

/-- The digit-queue view of struct ast_dsp used by ast_dsp_getdigits: the
DSP_DIGITMODE_MF bit of digitmode (dsp.h is not among the sampled sources, so
the bit is modelled as a Bool per the spec feature-bitmask description) and
the td union. -/
structure DspDigits where
  digitmode_mf : Bool
  td : TdUnion
deriving DecidableEq, Repr

/-- The digit queue currently selected by the digitmode of the detector, for
stating properties (none-free view of both branches). -/
def dspQueue (dsp : DspDigits) : List Char :=
  match dsp.td with
  | TdUnion.dtmf s => s.digits
  | TdUnion.mf s => s.digits

/-- ast_dsp_getdigits (lines 813-840): clamp max to the number of queued
digits, copy that prefix to the caller's buffer (returned list; the terminating
NUL the source writes is implicit in the list length), shift the queue down by
memmove, and return the count. Reading the td union through the member not
selected by digitmode would reinterpret memory: modelled as none. -/
def ast_dsp_getdigits (dsp : DspDigits) (max : Nat) : Option (List Char × DspDigits) :=
  if dsp.digitmode_mf then
    match dsp.td with
    | TdUnion.mf s =>
      let m := if max > s.digits.length then s.digits.length else max
      some (s.digits.take m, { dsp with td := TdUnion.mf { s with digits := s.digits.drop m } })
    | TdUnion.dtmf _ => none
  else
    match dsp.td with
    | TdUnion.dtmf s =>
      let m := if max > s.digits.length then s.digits.length else max
      some (s.digits.take m, { dsp with td := TdUnion.dtmf { s with digits := s.digits.drop m } })
    | TdUnion.mf _ => none

/-- DSP_HISTORY, DEFAULT_THRESHOLD and the busy cadence constants. -/
def DSP_HISTORY : Nat := 5

/-- BUSY_THRESHOLD: max ms difference between max and min run times in busy. -/
def BUSY_THRESHOLD : Nat := 100

/-- BUSY_MIN: a busy half-cadence must be at least this many ms. -/
def BUSY_MIN : Nat := 80

/-- BUSY_MAX: a busy half-cadence can be at most this many ms. -/
def BUSY_MAX : Nat := 1100

/-- Silence/busy-cadence fields of struct ast_dsp. The run-length histories
hold millisecond counts (only ever accumulated from nonnegative sample counts),
modelled as naturals; both lists have length DSP_HISTORY in reachable states. -/
structure DspBusy where
  threshold : Nat
  totalsilence : Nat
  totalnoise : Nat
  busymaybe : Bool
  busycount : Nat
  historicnoise : List Nat
  historicsilence : List Nat
deriving DecidableEq, Repr

/-- Internal silence tracker __ast_dsp_silence (lines 956-989): mean absolute
amplitude below the threshold classifies the block as silence; a transition
(nonzero run of the opposite kind) pushes the completed run into the 5-slot
history (shift down, store at the end) and sets busymaybe. Returns the updated
state, the silence result (1 = silent) and the written-back totalsilence. The
C integer division accum /= len is undefined for len = 0 (Lean yields 0). -/
def __ast_dsp_silence (dsp : DspBusy) (s : List Int) : DspBusy × Nat × Nat :=
  let accum := ((s.map Int.natAbs).sum) / s.length
  if accum < dsp.threshold then
    let dsp' :=
      if dsp.totalnoise ≠ 0 then
        { dsp with
          totalsilence := dsp.totalsilence + s.length / 8
          historicnoise := dsp.historicnoise.drop 1 ++ [dsp.totalnoise]
          busymaybe := true
          totalnoise := 0 }
      else
        { dsp with totalsilence := dsp.totalsilence + s.length / 8, totalnoise := 0 }
    (dsp', 1, dsp'.totalsilence)
  else
    let dsp' :=
      if dsp.totalsilence ≠ 0 then
        { dsp with
          totalnoise := dsp.totalnoise + s.length / 8
          historicsilence := dsp.historicsilence.drop 1 ++ [dsp.totalsilence]
          busymaybe := true
          totalsilence := 0 }
      else
        { dsp with totalnoise := dsp.totalnoise + s.length / 8, totalsilence := 0 }
    (dsp', 0, dsp'.totalsilence)

/-- The min/max scan of ast_dsp_busydetect over the inspected history slots,
in source order (silence entry then noise entry per slot), with the source's
initial accumulators min = 9999 and max = 0. -/
def bdScan : List (Nat × Nat) → Nat → Nat → Nat × Nat
  | [], mn, mx => (mn, mx)
  | p :: t, mn, mx => bdScan t (min (min mn p.1) p.2) (max (max mx p.1) p.2)

/-- The history slots ast_dsp_busydetect inspects: indices from
DSP_HISTORY - busycount up to DSP_HISTORY - 1 of both histories, paired. -/
def busyWindow (dsp : DspBusy) : List (Nat × Nat) :=
  (dsp.historicsilence.drop (DSP_HISTORY - dsp.busycount)).zip
    (dsp.historicnoise.drop (DSP_HISTORY - dsp.busycount))

/-- The inspected run lengths themselves, silence slots then noise slots (the
last busycount slots of both histories), used to state the claim. -/
def busyVals (dsp : DspBusy) : List Nat :=
  dsp.historicsilence.drop (DSP_HISTORY - dsp.busycount) ++
    dsp.historicnoise.drop (DSP_HISTORY - dsp.busycount)

/-- ast_dsp_busydetect (lines 991-1027): nothing happens unless busymaybe is
set; then busymaybe is cleared, min/max are scanned over the last busycount
slots of both histories, and busy is confirmed when max - min < BUSY_THRESHOLD,
max < BUSY_MAX and min > BUSY_MIN. -/
def ast_dsp_busydetect (dsp : DspBusy) : Nat × DspBusy :=
  if dsp.busymaybe then
    let scanned := bdScan (busyWindow dsp) 9999 0
    (if scanned.2 - scanned.1 < BUSY_THRESHOLD ∧ scanned.2 < BUSY_MAX ∧ BUSY_MIN < scanned.1
      then 1 else 0,
      { dsp with busymaybe := false })
  else (0, dsp)

/-- A busy-cadence state whose inspected history slots all lie in the busy
tolerance band (used as concrete witness input). -/
def c4Dsp : DspBusy :=
  ⟨1024, 0, 0, true, 3, [0, 0, 500, 480, 510], [0, 0, 490, 505, 495]⟩

/-- GSAMP_SIZE: number of samples per call-progress Goertzel block. -/
def GSAMP_SIZE : Nat := 183

/-- COUNT_THRESH: consecutive matching blocks needed to report a result. -/
def COUNT_THRESH : Nat := 3

/-- Call-progress tone states from the dsp source. -/
def TONE_STATE_SILENCE : Nat := 0

/-- TONE_STATE_RINGING. -/
def TONE_STATE_RINGING : Nat := 1

/-- TONE_STATE_DIALTONE. -/
def TONE_STATE_DIALTONE : Nat := 2

/-- TONE_STATE_TALKING. -/
def TONE_STATE_TALKING : Nat := 3

/-- TONE_STATE_BUSY. -/
def TONE_STATE_BUSY : Nat := 4

/-- TONE_STATE_SPECIAL1. -/
def TONE_STATE_SPECIAL1 : Nat := 5

/-- TONE_STATE_SPECIAL2. -/
def TONE_STATE_SPECIAL2 : Nat := 6

/-- TONE_STATE_SPECIAL3. -/
def TONE_STATE_SPECIAL3 : Nat := 7

/-- Modelled from the spec: AST_CONTROL_RINGING (the frame.h control subclass
constants are not among the sampled sources; the spec only requires the four
control results to be distinct and nonzero, values follow the Asterisk ABI). -/
def AST_CONTROL_RINGING : Nat := 3

/-- Modelled from the spec: AST_CONTROL_ANSWER. -/
def AST_CONTROL_ANSWER : Nat := 4

/-- Modelled from the spec: AST_CONTROL_BUSY. -/
def AST_CONTROL_BUSY : Nat := 5

/-- Modelled from the spec: AST_CONTROL_CONGESTION. -/
def AST_CONTROL_CONGESTION : Nat := 8

/-- Modelled from the spec: the detector feature bitmask {SILENCE_SUPPRESS,
BUSY_DETECT, DTMF_DETECT, CALL_PROGRESS} (dsp.h is not among the sampled
sources). Each DSP_FEATURE_* bit is one Bool field; the C idiom
features &= ~DSP_FEATURE_CALL_PROGRESS clears the call_progress field. -/
structure DspFeatures where
  silence_suppress : Bool
  busy_detect : Bool
  dtmf_detect : Bool
  call_progress : Bool
deriving DecidableEq, Repr

/-- Call-progress fields of struct ast_dsp: the confirmed tone state, the
consecutive-block counter, the feature flags and the sample fill of the
current Goertzel block. -/
structure DspProg where
  tstate : Nat
  tcount : Nat
  features : DspFeatures
  gsamps : Nat
deriving DecidableEq, Repr

/-- Which branch of the newstate classification (lines 885-902) fires for a
completed 183-sample block, determined solely by the block's Goertzel energies
(abstracted from the float comparisons): the busy pair, the ringback pair, the
dial-tone pair, dominant 950 Hz, dominant 1400 Hz, dominant 1800 Hz, broadband
talking energy, or none of these (silence). -/
inductive ProgClass
  | busy
  | ringing
  | dialtone
  | special1
  | f1400
  | f1800
  | talking
  | silence
deriving DecidableEq, Repr

/-- The newstate computed for one completed block (lines 885-902). The local
int newstate is not initialized: on the 1400 Hz (1800 Hz) branch it is written
only when the current tstate is SPECIAL1 (SPECIAL2); otherwise it keeps the
value from the previous block of the same call, or is an uninitialized read on
the first such block of a call - modelled by threading the previous written
value as stale : Option Nat, none meaning no block of this call wrote it yet. -/
def classNewstate (tstate : Nat) (c : ProgClass) (stale : Option Nat) : Option Nat :=
  match c with
  | ProgClass.busy => some TONE_STATE_BUSY
  | ProgClass.ringing => some TONE_STATE_RINGING
  | ProgClass.dialtone => some TONE_STATE_DIALTONE
  | ProgClass.special1 => some TONE_STATE_SPECIAL1
  | ProgClass.f1400 => if tstate = TONE_STATE_SPECIAL1 then some TONE_STATE_SPECIAL2 else stale
  | ProgClass.f1800 => if tstate = TONE_STATE_SPECIAL2 then some TONE_STATE_SPECIAL3 else stale
  | ProgClass.talking => some TONE_STATE_TALKING
  | ProgClass.silence => some TONE_STATE_SILENCE

/-- The end-of-block state update of __ast_dsp_call_progress (lines 904-927):
a matching newstate bumps tcount, and reaching COUNT_THRESH emits the control
result of the confirmed state (clearing the call-progress feature for the
terminal busy/answer/congestion results); a differing newstate restarts the
counter at 1. Returns (updated state, newstate value now held by the stale
local, emitted result if any); none models the undefined read of the
uninitialized newstate local. -/
def progressBlock (dsp : DspProg) (stale : Option Nat) (c : ProgClass) :
    Option (DspProg × Option Nat × Option Nat) :=
  (classNewstate dsp.tstate c stale).map (fun newstate =>
    if newstate = dsp.tstate then
      if dsp.tcount + 1 = COUNT_THRESH then
        if dsp.tstate = TONE_STATE_BUSY then
          ({ dsp with
              tcount := dsp.tcount + 1
              features := { dsp.features with call_progress := false } },
            some newstate, some AST_CONTROL_BUSY)
        else if dsp.tstate = TONE_STATE_TALKING then
          ({ dsp with
              tcount := dsp.tcount + 1
              features := { dsp.features with call_progress := false } },
            some newstate, some AST_CONTROL_ANSWER)
        else if dsp.tstate = TONE_STATE_RINGING then
          ({ dsp with tcount := dsp.tcount + 1 }, some newstate, some AST_CONTROL_RINGING)
        else if dsp.tstate = TONE_STATE_SPECIAL3 then
          ({ dsp with
              tcount := dsp.tcount + 1
              features := { dsp.features with call_progress := false } },
            some newstate, some AST_CONTROL_CONGESTION)
        else
          ({ dsp with tcount := dsp.tcount + 1 }, some newstate, none)
      else
        ({ dsp with tcount := dsp.tcount + 1 }, some newstate, none)
    else
      ({ dsp with tstate := newstate, tcount := 1 }, some newstate, none))

/-- The sample loop of __ast_dsp_call_progress (lines 848-935): consume up to
GSAMP_SIZE - gsamps samples per iteration; on filling a block, classify it
(the oracle abstracts the Goertzel energies of the bix-th completed block),
update the state machine and reset the block fill. The res local persists
across blocks of one call and the last written result is returned. Fuel bounds
the iterations (each consumes at least one sample, so len suffices); pass = 0
models the C infinite loop reachable only from corrupt gsamps >= GSAMP_SIZE. -/
def progressLoopF (oracle : Nat → ProgClass) :
    Nat → DspProg → Option Nat → Nat → Nat → Nat → Option (DspProg × Nat)
  | 0, dsp, _stale, res, len, _bix => if len = 0 then some (dsp, res) else none
  | fuel + 1, dsp, stale, res, len, bix =>
    if len = 0 then some (dsp, res)
    else
      let pass := min len (GSAMP_SIZE - dsp.gsamps)
      if pass = 0 then none
      else
        if dsp.gsamps + pass = GSAMP_SIZE then
          match progressBlock dsp stale (oracle bix) with
          | none => none
          | some (st', stale', emit) =>
            progressLoopF oracle fuel { st' with gsamps := 0 } stale'
              (match emit with | some r => r | none => res) (len - pass) (bix + 1)
        else
          progressLoopF oracle fuel { dsp with gsamps := dsp.gsamps + pass } stale res
            (len - pass) bix

/-- __ast_dsp_call_progress (lines 842-941) on len samples: run the sample loop
with res initialized to 0 and the newstate local not yet written (stale =
none), classifying completed blocks by the oracle. -/
def __ast_dsp_call_progress (dsp : DspProg) (len : Nat) (oracle : Nat → ProgClass) :
    Option (DspProg × Nat) :=
  progressLoopF oracle len dsp none 0 len 0

/-- Oracle classifying every block as the ringback pair. -/
def oracleRing : Nat → ProgClass := fun _ => ProgClass.ringing

/-- Oracle classifying three blocks as silence then every block as ringback. -/
def oracleMix : Nat → ProgClass := fun i => if i < 3 then ProgClass.silence else ProgClass.ringing

/-- Fresh call-progress state as initialized by ast_dsp_new (zeroed struct:
tstate silence, tcount 0, gsamps 0), with the call-progress feature enabled. -/
def freshProg : DspProg := ⟨TONE_STATE_SILENCE, 0, ⟨false, false, false, true⟩, 0⟩

/-! Lemmas about one traversal pass of framehook_list_push_event. -/

theorem activeCount_cons_flag {h : Hook} {t : List Hook}
    (hf : h.detach_and_destroy_me = true) : activeCount (h :: t) = activeCount t := by
  simp [activeCount, List.countP_cons, hf]

theorem activeCount_cons_active {h : Hook} {t : List Hook}
    (hf : h.detach_and_destroy_me = false) : activeCount (h :: t) = activeCount t + 1 := by
  simp [activeCount, List.countP_cons, hf]

theorem passRun_skip_length (ev : FhEvent) (orig : Nat) (hooks : List Hook) :
    ∀ (skip : List Bool) (num frame : Nat),
      (passRun ev orig hooks skip num frame).skip.length = skip.length := by
  induction hooks with
  | nil => intro skip num frame; rfl
  | cons h t ih =>
    intro skip num frame
    simp only [passRun]
    by_cases hf : h.detach_and_destroy_me = true
    · rw [if_pos hf]
      exact ih skip num frame
    · rw [if_neg hf]
      by_cases hs : skip.getD num false = true
      · rw [if_pos hs]
        exact ih skip (num + 1) frame
      · rw [if_neg hs]
        by_cases hc : h.cb ev frame = orig
        · rw [if_pos hc]
          exact ih skip (num + 1) (h.cb ev frame)
        · rw [if_neg hc]
          show (skip.set num true).length = skip.length
          exact List.length_set skip num true

theorem passRun_active (ev : FhEvent) (orig : Nat) (hooks : List Hook) :
    ∀ (skip : List Bool) (num frame : Nat),
      activeCount (passRun ev orig hooks skip num frame).hooks = activeCount hooks := by
  induction hooks with
  | nil => intro skip num frame; rfl
  | cons h t ih =>
    intro skip num frame
    simp only [passRun]
    by_cases hf : h.detach_and_destroy_me = true
    · rw [if_pos hf, activeCount_cons_flag hf]
      exact ih skip num frame
    · have hf' : h.detach_and_destroy_me = false := eq_false_of_ne_true hf
      rw [if_neg hf]
      by_cases hs : skip.getD num false = true
      · rw [if_pos hs]
        show activeCount (h :: (passRun ev orig t skip (num + 1) frame).hooks)
            = activeCount (h :: t)
        rw [activeCount_cons_active hf', activeCount_cons_active hf', ih skip (num + 1) frame]
      · rw [if_neg hs]
        by_cases hc : h.cb ev frame = orig
        · rw [if_pos hc]
          show activeCount (h :: (passRun ev orig t skip (num + 1) (h.cb ev frame)).hooks)
              = activeCount (h :: t)
          rw [activeCount_cons_active hf', activeCount_cons_active hf',
            ih skip (num + 1) (h.cb ev frame)]
        · rw [if_neg hc]

theorem passRun_noSubst_skip (ev : FhEvent) (orig : Nat) (hooks : List Hook) :
    ∀ (skip : List Bool) (num frame : Nat),
      (passRun ev orig hooks skip num frame).subst = false →
      (passRun ev orig hooks skip num frame).skip = skip := by
  induction hooks with
  | nil => intro skip num frame _; rfl
  | cons h t ih =>
    intro skip num frame
    simp only [passRun]
    by_cases hf : h.detach_and_destroy_me = true
    · rw [if_pos hf]; exact ih skip num frame
    · rw [if_neg hf]
      by_cases hs : skip.getD num false = true
      · rw [if_pos hs]; exact ih skip (num + 1) frame
      · rw [if_neg hs]
        by_cases hc : h.cb ev frame = orig
        · rw [if_pos hc]; exact ih skip (num + 1) (h.cb ev frame)
        · rw [if_neg hc]
          intro hcon
          cases hcon

theorem passRun_noSubst_frame (ev : FhEvent) (orig : Nat) (hooks : List Hook) :
    ∀ (skip : List Bool) (num : Nat),
      (passRun ev orig hooks skip num orig).subst = false →
      (passRun ev orig hooks skip num orig).frame = orig := by
  induction hooks with
  | nil => intro skip num _; rfl
  | cons h t ih =>
    intro skip num
    simp only [passRun]
    by_cases hf : h.detach_and_destroy_me = true
    · rw [if_pos hf]; exact ih skip num
    · rw [if_neg hf]
      by_cases hs : skip.getD num false = true
      · rw [if_pos hs]; exact ih skip (num + 1)
      · rw [if_neg hs]
        by_cases hc : h.cb ev orig = orig
        · rw [if_pos hc, hc]
          exact ih skip (num + 1)
        · rw [if_neg hc]
          intro hcon
          cases hcon

theorem passRun_subst_set (ev : FhEvent) (orig : Nat) (hooks : List Hook) :
    ∀ (skip : List Bool) (num frame : Nat),
      num + activeCount hooks ≤ skip.length →
      (passRun ev orig hooks skip num frame).subst = true →
      ∃ n, n < skip.length ∧ skip.getD n false = false ∧
        (passRun ev orig hooks skip num frame).skip = skip.set n true := by
  induction hooks with
  | nil => intro skip num frame _ hcon; cases hcon
  | cons h t ih =>
    intro skip num frame hlen
    simp only [passRun]
    by_cases hf : h.detach_and_destroy_me = true
    · rw [if_pos hf]
      rw [activeCount_cons_flag hf] at hlen
      exact ih skip num frame hlen
    · have hf' : h.detach_and_destroy_me = false := eq_false_of_ne_true hf
      rw [activeCount_cons_active hf'] at hlen
      rw [if_neg hf]
      by_cases hs : skip.getD num false = true
      · rw [if_pos hs]
        exact ih skip (num + 1) frame (by omega)
      · rw [if_neg hs]
        by_cases hc : h.cb ev frame = orig
        · rw [if_pos hc]
          exact ih skip (num + 1) (h.cb ev frame) (by omega)
        · rw [if_neg hc]
          intro _
          exact ⟨num, by omega, eq_false_of_ne_true hs, rfl⟩

theorem count_false_set (skip : List Bool) :
    ∀ (n : Nat), n < skip.length → skip.getD n false = false →
      (skip.set n true).count false + 1 = skip.count false := by
  induction skip with
  | nil =>
    intro n hn
    simp at hn
  | cons b t ih =>
    intro n hn hb
    cases n with
    | zero =>
      rw [List.getD_cons_zero] at hb
      subst hb
      simp [List.count_cons]
    | succ m =>
      rw [List.getD_cons_succ] at hb
      simp only [List.length_cons] at hn
      have := ih m (by omega) hb
      simp only [List.set_cons_succ, List.count_cons]
      omega

theorem pushLoop_some (ev : FhEvent) :
    ∀ (fuel : Nat) (hooks : List Hook) (skip : List Bool) (frame : Nat),
      activeCount hooks ≤ skip.length →
      skip.count false < fuel →
      ∃ l, pushLoop ev fuel hooks skip frame = some l ∧
        l.passes ≤ skip.count false + 1 := by
  intro fuel
  induction fuel with
  | zero => intro hooks skip frame _ hc; omega
  | succ k ih =>
    intro hooks skip frame hact hcount
    simp only [pushLoop]
    by_cases hsub : (passRun ev frame hooks skip 0 frame).subst = true
    · obtain ⟨n, hn, hfalse, hset⟩ :=
        passRun_subst_set ev frame hooks skip 0 frame (by omega) hsub
      have hc1 : (passRun ev frame hooks skip 0 frame).skip.count false + 1
          = skip.count false := by
        rw [hset]
        exact count_false_set skip n hn hfalse
      have hact' : activeCount (passRun ev frame hooks skip 0 frame).hooks ≤
          (passRun ev frame hooks skip 0 frame).skip.length := by
        rw [passRun_active, passRun_skip_length]
        exact hact
      obtain ⟨l, hl, hp⟩ := ih (passRun ev frame hooks skip 0 frame).hooks
        (passRun ev frame hooks skip 0 frame).skip
        (passRun ev frame hooks skip 0 frame).frame hact' (by omega)
      rw [if_pos hsub, hl]
      exact ⟨_, rfl, by
        show l.passes + 1 ≤ skip.count false + 1
        omega⟩
    · rw [if_neg hsub]
      exact ⟨_, rfl, by
        show 1 ≤ skip.count false + 1
        omega⟩

theorem pushLoop_lastPass (ev : FhEvent) :
    ∀ (fuel : Nat) (hooks : List Hook) (skip : List Bool) (frame : Nat) (l : LoopOut),
      pushLoop ev fuel hooks skip frame = some l →
      ∃ hooks₀ skip₀ tr₀,
        passRun ev l.frame hooks₀ skip₀ 0 l.frame = ⟨l.hooks, skip₀, l.frame, tr₀, false⟩ := by
  intro fuel
  induction fuel with
  | zero => intro hooks skip frame l h; cases h
  | succ k ih =>
    intro hooks skip frame l h
    simp only [pushLoop] at h
    by_cases hsub : (passRun ev frame hooks skip 0 frame).subst = true
    · rw [if_pos hsub] at h
      cases hpl : pushLoop ev k (passRun ev frame hooks skip 0 frame).hooks
          (passRun ev frame hooks skip 0 frame).skip
          (passRun ev frame hooks skip 0 frame).frame with
      | none => rw [hpl] at h; cases h
      | some l' =>
        rw [hpl] at h
        obtain ⟨h₀, s₀, t₀, heq⟩ := ih _ _ _ l' hpl
        cases h
        exact ⟨h₀, s₀, t₀, heq⟩
    · rw [if_neg hsub] at h
      cases h
      have hsub' : (passRun ev frame hooks skip 0 frame).subst = false :=
        eq_false_of_ne_true hsub
      have hskip : (passRun ev frame hooks skip 0 frame).skip = skip :=
        passRun_noSubst_skip ev frame hooks skip 0 frame hsub'
      have hframe : (passRun ev frame hooks skip 0 frame).frame = frame :=
        passRun_noSubst_frame ev frame hooks skip 0 hsub'
      refine ⟨hooks, skip, (passRun ev frame hooks skip 0 frame).trace, ?_⟩
      show passRun ev (passRun ev frame hooks skip 0 frame).frame hooks skip 0
          (passRun ev frame hooks skip 0 frame).frame =
        ⟨(passRun ev frame hooks skip 0 frame).hooks, skip,
          (passRun ev frame hooks skip 0 frame).frame,
          (passRun ev frame hooks skip 0 frame).trace, false⟩
      rw [hframe]
      calc passRun ev frame hooks skip 0 frame
          = ⟨(passRun ev frame hooks skip 0 frame).hooks,
              (passRun ev frame hooks skip 0 frame).skip,
              (passRun ev frame hooks skip 0 frame).frame,
              (passRun ev frame hooks skip 0 frame).trace,
              (passRun ev frame hooks skip 0 frame).subst⟩ := rfl
        _ = ⟨(passRun ev frame hooks skip 0 frame).hooks, skip, frame,
              (passRun ev frame hooks skip 0 frame).trace, false⟩ := by
            rw [hskip, hframe, hsub']

theorem count_false_replicate (n : Nat) : (List.replicate n false).count false = n := by
  induction n with
  | zero => rfl
  | succ k ih => simp [List.replicate, List.count_cons, ih]

/-- C1: framehook_list_push_event dispatches in insertion order with
restart-on-substitution. (1) Whenever dispatch returns, the returned frame is
one for which a full traversal pass (over the surviving hooks, under some skip
state) completes with no substitution, producing exactly the final hook list
and that frame; (2) conversely, if the first full pass over the list yields no
substitution, dispatch returns the incoming frame after exactly that one pass;
(3) concretely, with three hooks A, B, C attached in that order where only B
substitutes (frame 10 becomes frame 20), the invocation sequence is A and B
with frame 10, then - after the restart that skips B - A and C with frame 20,
and dispatch returns frame 20 after two passes with all three hooks attached. -/
theorem C1_dispatch_order_and_restart :
    (∀ (st : FhList) (frame : Nat) (ev : FhEvent) (out : PushOut),
      framehook_list_push_event (some st) frame ev = some out →
      ∃ st' hooks₀ skip₀ tr₀, out.fl = some st' ∧
        passRun ev out.frame hooks₀ skip₀ 0 out.frame
          = ⟨st'.hooks, skip₀, out.frame, tr₀, false⟩) ∧
    (∀ (st : FhList) (frame : Nat) (ev : FhEvent),
      (passRun ev frame st.hooks (List.replicate st.count false) 0 frame).subst = false →
      framehook_list_push_event (some st) frame ev =
        some ⟨some { st with
            hooks := (passRun ev frame st.hooks (List.replicate st.count false) 0 frame).hooks },
          frame,
          (passRun ev frame st.hooks (List.replicate st.count false) 0 frame).trace, 1⟩) ∧
    ((framehook_list_push_event (some c1List) 10 FhEvent.READ).map
        (fun out => (out.frame, out.trace, out.passes, out.fl.map (fun st => st.hooks.map Hook.id)))
      = some (20,
          [Call.event 1 FhEvent.READ 10, Call.event 2 FhEvent.READ 10,
            Call.event 1 FhEvent.READ 20, Call.event 3 FhEvent.READ 20],
          2, some [1, 2, 3])) := by
  refine ⟨?_, ?_, by decide⟩
  · intro st frame ev out h
    simp only [framehook_list_push_event] at h
    cases hpl : pushLoop ev (st.count + 1) st.hooks (List.replicate st.count false) frame with
    | none => rw [hpl] at h; cases h
    | some l =>
      rw [hpl] at h
      cases h
      obtain ⟨h₀, s₀, t₀, heq⟩ := pushLoop_lastPass ev (st.count + 1) st.hooks
        (List.replicate st.count false) frame l hpl
      exact ⟨{ st with hooks := l.hooks }, h₀, s₀, t₀, rfl, heq⟩
  · intro st frame ev hsub
    have hfr : (passRun ev frame st.hooks (List.replicate st.count false) 0 frame).frame
        = frame := passRun_noSubst_frame ev frame st.hooks _ 0 hsub
    have hloop : pushLoop ev (st.count + 1) st.hooks (List.replicate st.count false) frame
        = some ⟨(passRun ev frame st.hooks (List.replicate st.count false) 0 frame).hooks,
            (passRun ev frame st.hooks (List.replicate st.count false) 0 frame).skip,
            (passRun ev frame st.hooks (List.replicate st.count false) 0 frame).frame,
            (passRun ev frame st.hooks (List.replicate st.count false) 0 frame).trace, 1⟩ := by
      simp only [pushLoop]
      rw [if_neg (by rw [hsub]; exact Bool.false_ne_true)]
    simp only [framehook_list_push_event]
    rw [hloop, hfr]

/-- C1 witness: the general final-pass characterization instantiated at the
concrete three-hook scenario. -/
theorem C1_dispatch_order_and_restart_witness :
    ∃ out, framehook_list_push_event (some c1List) 10 FhEvent.READ = some out ∧
      ∃ st' hooks₀ skip₀ tr₀, out.fl = some st' ∧
        passRun FhEvent.READ out.frame hooks₀ skip₀ 0 out.frame
          = ⟨st'.hooks, skip₀, out.frame, tr₀, false⟩ :=
  ⟨_, rfl, C1_dispatch_order_and_restart.1 c1List 10 FhEvent.READ _ rfl⟩

/-- C7 counterexample: one hook whose callback substitutes every frame makes
dispatch take two do-while passes, exceeding the hook count (one). -/
theorem C7_pass_bound_counterexample :
    (framehook_list_push_event (some c7List) 10 FhEvent.READ).map PushOut.passes = some 2 ∧
    ¬ (2 ≤ c7List.hooks.length) ∧ ¬ (2 ≤ c7List.count) := by
  exact ⟨rfl, by decide, by decide⟩

/-- C7 amended: for every framehook list whose active hooks do not exceed the
count field (true of every reachable list) and every frame, dispatch
terminates, and the number of do-while passes is at most the hook count plus
one: each pass that restarts permanently marks one more hook as skipped, and
flagged hooks are removed rather than revisited. -/
theorem C7_push_event_terminates :
    ∀ (st : FhList) (frame : Nat) (ev : FhEvent),
      activeCount st.hooks ≤ st.count →
      ∃ out, framehook_list_push_event (some st) frame ev = some out ∧
        out.passes ≤ st.count + 1 := by
  intro st frame ev hact
  obtain ⟨l, hl, hp⟩ := pushLoop_some ev (st.count + 1) st.hooks
    (List.replicate st.count false) frame
    (by rw [List.length_replicate]; exact hact)
    (by rw [count_false_replicate]; omega)
  refine ⟨⟨some { st with hooks := l.hooks }, l.frame, l.trace, l.passes⟩, ?_, ?_⟩
  · simp only [framehook_list_push_event]
    rw [hl]
  · show l.passes ≤ st.count + 1
    rw [count_false_replicate] at hp
    omega

/-- C7 witness: the amended bound instantiated at the three-hook scenario. -/
theorem C7_push_event_terminates_witness :
    ∃ out, framehook_list_push_event (some c1List) 10 FhEvent.READ = some out ∧
      out.passes ≤ c1List.count + 1 :=
  C7_push_event_terminates c1List 10 FhEvent.READ (by decide)

theorem passRun_hooks_subset (ev : FhEvent) (orig : Nat) (hooks : List Hook) :
    ∀ (skip : List Bool) (num frame : Nat) (x : Hook),
      x ∈ (passRun ev orig hooks skip num frame).hooks → x ∈ hooks := by
  induction hooks with
  | nil => intro skip num frame x hx; exact absurd hx (List.not_mem_nil x)
  | cons h t ih =>
    intro skip num frame x
    simp only [passRun]
    by_cases hf : h.detach_and_destroy_me = true
    · rw [if_pos hf]
      intro hx
      exact List.mem_cons_of_mem h (ih skip num frame x hx)
    · rw [if_neg hf]
      by_cases hs : skip.getD num false = true
      · rw [if_pos hs]
        intro hx
        rcases List.mem_cons.mp hx with hx' | hx'
        · exact hx' ▸ List.mem_cons_self h t
        · exact List.mem_cons_of_mem h (ih skip (num + 1) frame x hx')
      · rw [if_neg hs]
        by_cases hc : h.cb ev frame = orig
        · rw [if_pos hc]
          intro hx
          rcases List.mem_cons.mp hx with hx' | hx'
          · exact hx' ▸ List.mem_cons_self h t
          · exact List.mem_cons_of_mem h (ih skip (num + 1) (h.cb ev frame) x hx')
        · rw [if_neg hc]
          intro hx
          exact hx

theorem passRun_noSubst_noflag (ev : FhEvent) (orig : Nat) (hooks : List Hook) :
    ∀ (skip : List Bool) (num frame : Nat),
      (passRun ev orig hooks skip num frame).subst = false →
      ∀ x ∈ (passRun ev orig hooks skip num frame).hooks,
        x.detach_and_destroy_me = false := by
  induction hooks with
  | nil => intro skip num frame _ x hx; exact absurd hx (List.not_mem_nil x)
  | cons h t ih =>
    intro skip num frame
    simp only [passRun]
    by_cases hf : h.detach_and_destroy_me = true
    · rw [if_pos hf]
      exact ih skip num frame
    · have hf' : h.detach_and_destroy_me = false := eq_false_of_ne_true hf
      rw [if_neg hf]
      by_cases hs : skip.getD num false = true
      · rw [if_pos hs]
        intro hns x hx
        rcases List.mem_cons.mp hx with hx' | hx'
        · exact hx' ▸ hf'
        · exact ih skip (num + 1) frame hns x hx'
      · rw [if_neg hs]
        by_cases hc : h.cb ev frame = orig
        · rw [if_pos hc]
          intro hns x hx
          rcases List.mem_cons.mp hx with hx' | hx'
          · exact hx' ▸ hf'
          · exact ih skip (num + 1) (h.cb ev frame) hns x hx'
        · rw [if_neg hc]
          intro hcon
          cases hcon

theorem passRun_trace_mem (ev : FhEvent) (orig : Nat) (hooks : List Hook) :
    ∀ (skip : List Bool) (num frame : Nat) (i : Nat) (e : FhEvent) (f : Nat),
      Call.event i e f ∈ (passRun ev orig hooks skip num frame).trace →
      (∃ hh, hh ∈ hooks ∧ hh.id = i ∧ hh.detach_and_destroy_me = true ∧
        e = FhEvent.DETACHED ∧ f = 0) ∨
      (∃ hh, hh ∈ hooks ∧ hh.id = i ∧ hh.detach_and_destroy_me = false ∧ e = ev) := by
  induction hooks with
  | nil =>
    intro skip num frame i e f hx
    exact absurd hx (List.not_mem_nil _)
  | cons h t ih =>
    intro skip num frame i e f
    simp only [passRun]
    by_cases hf : h.detach_and_destroy_me = true
    · rw [if_pos hf]
      intro hx
      rcases List.mem_append.mp hx with hx' | hx'
      · left
        refine ⟨h, List.mem_cons_self h t, ?_⟩
        simp only [destroyCalls] at hx'
        rcases List.mem_cons.mp hx' with hx'' | hx''
        · obtain ⟨h1, h2, h3⟩ := Call.event.inj hx''
          exact ⟨h1.symm, hf, h2, h3⟩
        · exfalso
          by_cases hd : h.hasDestroy = true <;> simp [hd] at hx''
      · rcases ih skip num frame i e f hx' with ⟨hh, hm, rest⟩ | ⟨hh, hm, rest⟩
        · exact Or.inl ⟨hh, List.mem_cons_of_mem h hm, rest⟩
        · exact Or.inr ⟨hh, List.mem_cons_of_mem h hm, rest⟩
    · have hf' : h.detach_and_destroy_me = false := eq_false_of_ne_true hf
      rw [if_neg hf]
      by_cases hs : skip.getD num false = true
      · rw [if_pos hs]
        intro hx
        rcases ih skip (num + 1) frame i e f hx with ⟨hh, hm, rest⟩ | ⟨hh, hm, rest⟩
        · exact Or.inl ⟨hh, List.mem_cons_of_mem h hm, rest⟩
        · exact Or.inr ⟨hh, List.mem_cons_of_mem h hm, rest⟩
      · rw [if_neg hs]
        by_cases hc : h.cb ev frame = orig
        · rw [if_pos hc]
          intro hx
          rcases List.mem_cons.mp hx with hx' | hx'
          · obtain ⟨h1, h2, _⟩ := Call.event.inj hx'
            exact Or.inr ⟨h, List.mem_cons_self h t, h1.symm, hf', h2⟩
          · rcases ih skip (num + 1) (h.cb ev frame) i e f hx' with ⟨hh, hm, rest⟩ | ⟨hh, hm, rest⟩
            · exact Or.inl ⟨hh, List.mem_cons_of_mem h hm, rest⟩
            · exact Or.inr ⟨hh, List.mem_cons_of_mem h hm, rest⟩
        · rw [if_neg hc]
          intro hx
          rcases List.mem_cons.mp hx with hx' | hx'
          · obtain ⟨h1, h2, _⟩ := Call.event.inj hx'
            exact Or.inr ⟨h, List.mem_cons_self h t, h1.symm, hf', h2⟩
          · exact absurd hx' (List.not_mem_nil _)

theorem passRun_dwsum (ev : FhEvent) (orig : Nat) (c : Call)
    (hc : ∀ i' f', c ≠ Call.event i' ev f') (hooks : List Hook) :
    ∀ (skip : List Bool) (num frame : Nat),
      dwsum c hooks = (passRun ev orig hooks skip num frame).trace.count c
        + dwsum c (passRun ev orig hooks skip num frame).hooks := by
  induction hooks with
  | nil => intro skip num frame; rfl
  | cons h t ih =>
    intro skip num frame
    simp only [passRun]
    by_cases hf : h.detach_and_destroy_me = true
    · rw [if_pos hf]
      show (if h.detach_and_destroy_me then (destroyCalls h).count c else 0) + dwsum c t
        = (destroyCalls h ++ (passRun ev orig t skip num frame).trace).count c
          + dwsum c (passRun ev orig t skip num frame).hooks
      rw [if_pos hf, List.count_append, ih skip num frame]
      omega
    · have hf' : h.detach_and_destroy_me = false := eq_false_of_ne_true hf
      have hcons : ∀ (l : List Hook), dwsum c (h :: l) = dwsum c l := by
        intro l
        show (if h.detach_and_destroy_me then (destroyCalls h).count c else 0) + dwsum c l
          = dwsum c l
        rw [hf']
        simp
      rw [if_neg hf]
      by_cases hs : skip.getD num false = true
      · rw [if_pos hs]
        show dwsum c (h :: t) = (passRun ev orig t skip (num + 1) frame).trace.count c
          + dwsum c (h :: (passRun ev orig t skip (num + 1) frame).hooks)
        rw [hcons, hcons]
        exact ih skip (num + 1) frame
      · rw [if_neg hs]
        have hcnt : ∀ (l : List Call) (fr : Nat),
            (Call.event h.id ev fr :: l).count c = l.count c := by
          intro l fr
          rw [List.count_cons]
          have : ¬ (Call.event h.id ev fr == c) = true := by
            simp only [beq_iff_eq]
            intro hcc
            exact hc h.id fr hcc.symm
          simp [this]
        by_cases hcb : h.cb ev frame = orig
        · rw [if_pos hcb]
          show dwsum c (h :: t)
            = (Call.event h.id ev frame :: (passRun ev orig t skip (num + 1) (h.cb ev frame)).trace).count c
              + dwsum c (h :: (passRun ev orig t skip (num + 1) (h.cb ev frame)).hooks)
          rw [hcnt, hcons, hcons]
          exact ih skip (num + 1) (h.cb ev frame)
        · rw [if_neg hcb]
          show dwsum c (h :: t) = ([Call.event h.id ev frame]).count c + dwsum c (h :: t)
          rw [hcnt]
          simp

theorem pushLoop_hooks_subset (ev : FhEvent) :
    ∀ (fuel : Nat) (hooks : List Hook) (skip : List Bool) (frame : Nat) (l : LoopOut),
      pushLoop ev fuel hooks skip frame = some l →
      ∀ x ∈ l.hooks, x ∈ hooks := by
  intro fuel
  induction fuel with
  | zero => intro hooks skip frame l h; cases h
  | succ k ih =>
    intro hooks skip frame l h
    simp only [pushLoop] at h
    by_cases hsub : (passRun ev frame hooks skip 0 frame).subst = true
    · rw [if_pos hsub] at h
      cases hpl : pushLoop ev k (passRun ev frame hooks skip 0 frame).hooks
          (passRun ev frame hooks skip 0 frame).skip
          (passRun ev frame hooks skip 0 frame).frame with
      | none => rw [hpl] at h; cases h
      | some l' =>
        rw [hpl] at h
        cases h
        intro x hx
        exact passRun_hooks_subset ev frame hooks skip 0 frame x (ih _ _ _ l' hpl x hx)
    · rw [if_neg hsub] at h
      cases h
      intro x hx
      exact passRun_hooks_subset ev frame hooks skip 0 frame x hx

theorem pushLoop_noflag (ev : FhEvent) :
    ∀ (fuel : Nat) (hooks : List Hook) (skip : List Bool) (frame : Nat) (l : LoopOut),
      pushLoop ev fuel hooks skip frame = some l →
      ∀ x ∈ l.hooks, x.detach_and_destroy_me = false := by
  intro fuel
  induction fuel with
  | zero => intro hooks skip frame l h; cases h
  | succ k ih =>
    intro hooks skip frame l h
    simp only [pushLoop] at h
    by_cases hsub : (passRun ev frame hooks skip 0 frame).subst = true
    · rw [if_pos hsub] at h
      cases hpl : pushLoop ev k (passRun ev frame hooks skip 0 frame).hooks
          (passRun ev frame hooks skip 0 frame).skip
          (passRun ev frame hooks skip 0 frame).frame with
      | none => rw [hpl] at h; cases h
      | some l' =>
        rw [hpl] at h
        cases h
        exact ih _ _ _ l' hpl
    · rw [if_neg hsub] at h
      cases h
      exact passRun_noSubst_noflag ev frame hooks skip 0 frame (eq_false_of_ne_true hsub)

theorem pushLoop_trace_mem (ev : FhEvent) :
    ∀ (fuel : Nat) (hooks : List Hook) (skip : List Bool) (frame : Nat) (l : LoopOut),
      pushLoop ev fuel hooks skip frame = some l →
      ∀ (i : Nat) (e : FhEvent) (f : Nat), Call.event i e f ∈ l.trace →
      (∃ hh, hh ∈ hooks ∧ hh.id = i ∧ hh.detach_and_destroy_me = true ∧
        e = FhEvent.DETACHED ∧ f = 0) ∨
      (∃ hh, hh ∈ hooks ∧ hh.id = i ∧ hh.detach_and_destroy_me = false ∧ e = ev) := by
  intro fuel
  induction fuel with
  | zero => intro hooks skip frame l h; cases h
  | succ k ih =>
    intro hooks skip frame l h
    simp only [pushLoop] at h
    by_cases hsub : (passRun ev frame hooks skip 0 frame).subst = true
    · rw [if_pos hsub] at h
      cases hpl : pushLoop ev k (passRun ev frame hooks skip 0 frame).hooks
          (passRun ev frame hooks skip 0 frame).skip
          (passRun ev frame hooks skip 0 frame).frame with
      | none => rw [hpl] at h; cases h
      | some l' =>
        rw [hpl] at h
        cases h
        intro i e f hx
        rcases List.mem_append.mp hx with hx' | hx'
        · exact passRun_trace_mem ev frame hooks skip 0 frame i e f hx'
        · rcases ih _ _ _ l' hpl i e f hx' with ⟨hh, hm, rest⟩ | ⟨hh, hm, rest⟩
          · exact Or.inl ⟨hh, passRun_hooks_subset ev frame hooks skip 0 frame hh hm, rest⟩
          · exact Or.inr ⟨hh, passRun_hooks_subset ev frame hooks skip 0 frame hh hm, rest⟩
    · rw [if_neg hsub] at h
      cases h
      intro i e f hx
      exact passRun_trace_mem ev frame hooks skip 0 frame i e f hx

theorem pushLoop_dwsum (ev : FhEvent) (c : Call)
    (hc : ∀ i' f', c ≠ Call.event i' ev f') :
    ∀ (fuel : Nat) (hooks : List Hook) (skip : List Bool) (frame : Nat) (l : LoopOut),
      pushLoop ev fuel hooks skip frame = some l →
      dwsum c hooks = l.trace.count c + dwsum c l.hooks := by
  intro fuel
  induction fuel with
  | zero => intro hooks skip frame l h; cases h
  | succ k ih =>
    intro hooks skip frame l h
    simp only [pushLoop] at h
    by_cases hsub : (passRun ev frame hooks skip 0 frame).subst = true
    · rw [if_pos hsub] at h
      cases hpl : pushLoop ev k (passRun ev frame hooks skip 0 frame).hooks
          (passRun ev frame hooks skip 0 frame).skip
          (passRun ev frame hooks skip 0 frame).frame with
      | none => rw [hpl] at h; cases h
      | some l' =>
        rw [hpl] at h
        cases h
        have h1 := passRun_dwsum ev frame c hc hooks skip 0 frame
        have h2 := ih _ _ _ l' hpl
        show dwsum c hooks
          = ((passRun ev frame hooks skip 0 frame).trace ++ l'.trace).count c
            + dwsum c l'.hooks
        rw [List.count_append]
        omega
    · rw [if_neg hsub] at h
      cases h
      exact passRun_dwsum ev frame c hc hooks skip 0 frame

theorem destroyCalls_count_zero (x : Hook) (c : Call) (hne : x.id ≠ callHookId c) :
    (destroyCalls x).count c = 0 := by
  cases c with
  | event i e f =>
    simp only [callHookId] at hne
    by_cases hd : x.hasDestroy = true <;>
      simp [destroyCalls, hd, List.count_cons, List.count_nil] <;>
      intro h1 <;> exact fun _ _ => hne h1
  | destroy i =>
    simp only [callHookId] at hne
    by_cases hd : x.hasDestroy = true <;>
      simp [destroyCalls, hd, List.count_cons, List.count_nil]
    intro h1
    exact absurd h1 hne

theorem destroyCalls_count_detached (x : Hook) :
    (destroyCalls x).count (Call.event x.id FhEvent.DETACHED 0) = 1 := by
  by_cases hd : x.hasDestroy = true <;>
    simp [destroyCalls, hd, List.count_cons, List.count_nil]

theorem destroyCalls_count_destroy (x : Hook) :
    (destroyCalls x).count (Call.destroy x.id) = (if x.hasDestroy then 1 else 0) := by
  by_cases hd : x.hasDestroy = true <;>
    simp [destroyCalls, hd, List.count_cons, List.count_nil]

theorem dwsum_zero_of_id_ne (c : Call) (t : List Hook)
    (h : ∀ y ∈ t, y.id ≠ callHookId c) : dwsum c t = 0 := by
  induction t with
  | nil => rfl
  | cons x t ih =>
    show (if x.detach_and_destroy_me then (destroyCalls x).count c else 0) + dwsum c t = 0
    rw [destroyCalls_count_zero x c (h x (List.mem_cons_self x t)),
      ih (fun y hy => h y (List.mem_cons_of_mem x hy))]
    simp

theorem dwsum_zero_of_noflag (c : Call) (t : List Hook)
    (h : ∀ x ∈ t, x.detach_and_destroy_me = false) : dwsum c t = 0 := by
  induction t with
  | nil => rfl
  | cons x t ih =>
    show (if x.detach_and_destroy_me then (destroyCalls x).count c else 0) + dwsum c t = 0
    rw [h x (List.mem_cons_self x t), ih (fun y hy => h y (List.mem_cons_of_mem x hy))]
    simp

theorem dwsum_nodup_flagged (hooks : List Hook) (h : Hook) (c : Call)
    (hn : (hooks.map Hook.id).Nodup) (hm : h ∈ hooks)
    (hf : h.detach_and_destroy_me = true) (hcid : callHookId c = h.id) :
    dwsum c hooks = (destroyCalls h).count c := by
  induction hooks with
  | nil => exact absurd hm (List.not_mem_nil h)
  | cons x t ih =>
    rw [List.map_cons, List.nodup_cons] at hn
    obtain ⟨hx, hn'⟩ := hn
    rcases List.mem_cons.mp hm with rfl | hm'
    · show (if h.detach_and_destroy_me then (destroyCalls h).count c else 0) + dwsum c t
        = (destroyCalls h).count c
      rw [if_pos hf, dwsum_zero_of_id_ne c t ?_]
      · simp
      · intro y hy hyc
        have hye : y.id = h.id := by rw [hyc, hcid]
        exact hx (hye ▸ List.mem_map_of_mem Hook.id hy)
    · show (if x.detach_and_destroy_me then (destroyCalls x).count c else 0) + dwsum c t
        = (destroyCalls h).count c
      have hxid : x.id ≠ callHookId c := by
        rw [hcid]
        intro hxe
        exact hx (hxe ▸ List.mem_map_of_mem Hook.id hm')
      rw [destroyCalls_count_zero x c hxid]
      have := ih hn' hm'
      simp only [ite_self]
      simpa using this

theorem destroyAll_count_zero (c : Call) (t : List Hook)
    (h : ∀ y ∈ t, y.id ≠ callHookId c) : (destroyAll t).count c = 0 := by
  induction t with
  | nil => rfl
  | cons x t ih =>
    show (destroyCalls x ++ destroyAll t).count c = 0
    rw [List.count_append, destroyCalls_count_zero x c (h x (List.mem_cons_self x t)),
      ih (fun y hy => h y (List.mem_cons_of_mem x hy))]

theorem destroyAll_nodup_mem (hooks : List Hook) (h : Hook)
    (hn : (hooks.map Hook.id).Nodup) (hm : h ∈ hooks) :
    (destroyAll hooks).count (Call.event h.id FhEvent.DETACHED 0) = 1 := by
  induction hooks with
  | nil => exact absurd hm (List.not_mem_nil h)
  | cons x t ih =>
    rw [List.map_cons, List.nodup_cons] at hn
    obtain ⟨hx, hn'⟩ := hn
    show (destroyCalls x ++ destroyAll t).count (Call.event h.id FhEvent.DETACHED 0) = 1
    rw [List.count_append]
    rcases List.mem_cons.mp hm with rfl | hm'
    · rw [destroyCalls_count_detached, destroyAll_count_zero _ t ?_]
      · intro y hy hyc
        have hye : y.id = h.id := hyc
        exact hx (hye ▸ List.mem_map_of_mem Hook.id hy)
    · have hxid : x.id ≠ h.id := fun hxe => hx (hxe ▸ List.mem_map_of_mem Hook.id hm')
      rw [destroyCalls_count_zero x (Call.event h.id FhEvent.DETACHED 0) hxid, ih hn' hm']

theorem detachList_map_id (hooks : List Hook) : ∀ (i : Nat),
    ((detachList hooks i).2).map Hook.id = hooks.map Hook.id := by
  induction hooks with
  | nil => intro i; rfl
  | cons h t ih =>
    intro i
    simp only [detachList]
    by_cases hid : h.id = i
    · rw [if_pos hid]
      rfl
    · rw [if_neg hid]
      show Hook.id h :: ((detachList t i).2).map Hook.id = Hook.id h :: t.map Hook.id
      rw [ih i]

/-- C2: detachment is deferred. (1) ast_framehook_detach makes no callback
invocations; (2) it frees nothing - the hook entries (their ids, in order) and
the count and id counters all survive a detach; (3) once an entry is flagged,
a READ or WRITE dispatch delivers its DETACHED event exactly once and its
destroy callback exactly once (when present), delivers it no READ or WRITE
event, and removes it from the list so no later dispatch can reach it;
(4) list teardown likewise delivers each hook's DETACHED event exactly once
and frees the list. -/
theorem C2_detach_is_deferred :
    (∀ (fl : Option FhList) (id : Nat), (ast_framehook_detach fl id).2.2 = []) ∧
    (∀ (st : FhList) (id : Nat), ∃ st',
      (ast_framehook_detach (some st) id).2.1 = some st' ∧
      st'.hooks.map Hook.id = st.hooks.map Hook.id ∧
      st'.count = st.count ∧ st'.id_count = st.id_count) ∧
    (∀ (st : FhList) (h : Hook) (frame : Nat) (ev : FhEvent) (out : PushOut),
      (ev = FhEvent.READ ∨ ev = FhEvent.WRITE) →
      (st.hooks.map Hook.id).Nodup →
      h ∈ st.hooks → h.detach_and_destroy_me = true →
      framehook_list_push_event (some st) frame ev = some out →
      out.trace.count (Call.event h.id FhEvent.DETACHED 0) = 1 ∧
      out.trace.count (Call.destroy h.id) = (if h.hasDestroy then 1 else 0) ∧
      (∀ (e : FhEvent) (f : Nat), Call.event h.id e f ∈ out.trace → e = FhEvent.DETACHED) ∧
      (∀ st', out.fl = some st' → ∀ h' ∈ st'.hooks, h'.id ≠ h.id)) ∧
    (∀ (st : FhList) (h : Hook),
      (st.hooks.map Hook.id).Nodup → h ∈ st.hooks →
      ((ast_framehook_list_destroy (some st)).2).count (Call.event h.id FhEvent.DETACHED 0) = 1 ∧
      (ast_framehook_list_destroy (some st)).1 = none) := by
  refine ⟨?_, ?_, ?_, ?_⟩
  · intro fl id
    cases fl <;> rfl
  · intro st id
    exact ⟨{ st with hooks := (detachList st.hooks id).2 }, rfl,
      detachList_map_id st.hooks id, rfl, rfl⟩
  · intro st h frame ev out hev hn hm hf hpush
    have hne : ev ≠ FhEvent.DETACHED := by
      rcases hev with rfl | rfl <;> intro hcc <;> cases hcc
    simp only [framehook_list_push_event] at hpush
    cases hpl : pushLoop ev (st.count + 1) st.hooks (List.replicate st.count false) frame with
    | none => rw [hpl] at hpush; cases hpush
    | some l =>
      rw [hpl] at hpush
      cases hpush
      have hnoflag := pushLoop_noflag ev _ _ _ _ l hpl
      have hsubset := pushLoop_hooks_subset ev _ _ _ _ l hpl
      have hcdet : ∀ (i' f' : Nat), (Call.event h.id FhEvent.DETACHED 0) ≠ Call.event i' ev f' := by
        intro i' f' heq
        exact hne ((Call.event.inj heq).2.1).symm
      have hcdes : ∀ (i' f' : Nat), (Call.destroy h.id) ≠ Call.event i' ev f' := by
        intro i' f' heq
        cases heq
      have hd1 := pushLoop_dwsum ev _ hcdet _ _ _ _ l hpl
      have hd2 := pushLoop_dwsum ev _ hcdes _ _ _ _ l hpl
      have hz1 : dwsum (Call.event h.id FhEvent.DETACHED 0) l.hooks = 0 :=
        dwsum_zero_of_noflag _ _ hnoflag
      have hz2 : dwsum (Call.destroy h.id) l.hooks = 0 :=
        dwsum_zero_of_noflag _ _ hnoflag
      have hw1 : dwsum (Call.event h.id FhEvent.DETACHED 0) st.hooks
          = (destroyCalls h).count (Call.event h.id FhEvent.DETACHED 0) :=
        dwsum_nodup_flagged st.hooks h _ hn hm hf rfl
      have hw2 : dwsum (Call.destroy h.id) st.hooks
          = (destroyCalls h).count (Call.destroy h.id) :=
        dwsum_nodup_flagged st.hooks h _ hn hm hf rfl
      refine ⟨?_, ?_, ?_, ?_⟩
      · show l.trace.count (Call.event h.id FhEvent.DETACHED 0) = 1
        have heq1 : l.trace.count (Call.event h.id FhEvent.DETACHED 0)
            = dwsum (Call.event h.id FhEvent.DETACHED 0) st.hooks := by omega
        rw [heq1, hw1, destroyCalls_count_detached]
      · show l.trace.count (Call.destroy h.id) = (if h.hasDestroy then 1 else 0)
        have heq2 : l.trace.count (Call.destroy h.id)
            = dwsum (Call.destroy h.id) st.hooks := by omega
        rw [heq2, hw2, destroyCalls_count_destroy]
      · intro e f hmem
        have hmem' : Call.event h.id e f ∈ l.trace := hmem
        rcases pushLoop_trace_mem ev _ _ _ _ l hpl h.id e f hmem' with
          ⟨hh, hhm, hhid, hhf, he, _⟩ | ⟨hh, hhm, hhid, hhf, he⟩
        · exact he
        · exfalso
          have hhh : hh = h := List.inj_on_of_nodup_map hn hhm hm hhid
          rw [hhh, hf] at hhf
          cases hhf
      · intro st' hfl h' hh' hid
        have hfl' : some { st with hooks := l.hooks } = some st' := hfl
        cases hfl'
        have hh'' : h' ∈ l.hooks := hh'
        have h1 : h' ∈ st.hooks := hsubset h' hh''
        have h2 : h'.detach_and_destroy_me = false := hnoflag h' hh''
        have hhh : h' = h := List.inj_on_of_nodup_map hn h1 hm hid
        rw [hhh, hf] at h2
        cases h2
  · intro st h hn hm
    exact ⟨destroyAll_nodup_mem st.hooks h hn hm, rfl⟩

/-- C2 witness: the dispatch conjunct instantiated at a concrete two-hook list
whose first hook (id 1, with destroy callback) is flagged. -/
theorem C2_detach_is_deferred_witness :
    ∃ out, framehook_list_push_event (some c2List) 5 FhEvent.READ = some out ∧
      out.trace.count (Call.event 1 FhEvent.DETACHED 0) = 1 ∧
      out.trace.count (Call.destroy 1) = 1 ∧
      (∀ (e : FhEvent) (f : Nat), Call.event 1 e f ∈ out.trace → e = FhEvent.DETACHED) ∧
      (∀ st', out.fl = some st' → ∀ h' ∈ st'.hooks, h'.id ≠ 1) := by
  obtain ⟨a, b, cc, d⟩ := C2_detach_is_deferred.2.2.1 c2List ⟨1, true, true, fun _ f => f⟩ 5
    FhEvent.READ _ (Or.inl rfl) (by decide) (List.mem_cons_self _ _) rfl rfl
  exact ⟨_, rfl, a, b, cc, d⟩

theorem detachList_no_match (hooks : List Hook) : ∀ (i : Nat),
    (∀ h ∈ hooks, h.id ≠ i) → detachList hooks i = (-1, hooks) := by
  induction hooks with
  | nil => intro i _; rfl
  | cons h t ih =>
    intro i hno
    simp only [detachList]
    rw [if_neg (hno h (List.mem_cons_self h t))]
    rw [ih i (fun y hy => hno y (List.mem_cons_of_mem h hy))]

theorem detachList_found (hooks : List Hook) : ∀ (i : Nat),
    (∃ h ∈ hooks, h.id = i) →
    ∃ pre x post, hooks = pre ++ x :: post ∧ (∀ y ∈ pre, y.id ≠ i) ∧ x.id = i ∧
      detachList hooks i = (0, pre ++ { x with detach_and_destroy_me := true } :: post) := by
  induction hooks with
  | nil => intro i h; obtain ⟨h, hm, _⟩ := h; exact absurd hm (List.not_mem_nil h)
  | cons h t ih =>
    intro i hex
    by_cases hid : h.id = i
    · refine ⟨[], h, t, rfl, ?_, hid, ?_⟩
      · intro y hy
        cases hy
      · simp only [detachList]
        rw [if_pos hid]
        rfl
    · obtain ⟨x₀, hm₀, hid₀⟩ := hex
      have hx₀ : x₀ ∈ t := by
        rcases List.mem_cons.mp hm₀ with rfl | hmem
        · exact absurd hid₀ hid
        · exact hmem
      obtain ⟨pre, x, post, hsplit, hpre, hxid, heq⟩ := ih i ⟨x₀, hx₀, hid₀⟩
      refine ⟨h :: pre, x, post, by rw [hsplit]; rfl, ?_, hxid, ?_⟩
      · intro y hy
        rcases List.mem_cons.mp hy with rfl | hy'
        · exact hid
        · exact hpre y hy'
      · simp only [detachList]
        rw [if_neg hid, heq]
        rfl

theorem detachList_fst_zero (hooks : List Hook) : ∀ (i : Nat),
    (∃ h ∈ hooks, h.id = i) → (detachList hooks i).1 = 0 := by
  intro i hex
  obtain ⟨_, _, _, _, _, _, heq⟩ := detachList_found hooks i hex
  rw [heq]

theorem detachList_mem_of_zero (hooks : List Hook) : ∀ (i : Nat),
    (detachList hooks i).1 = 0 → ∃ h ∈ (detachList hooks i).2, h.id = i := by
  induction hooks with
  | nil =>
    intro i h
    exact absurd h (by simp [detachList])
  | cons h t ih =>
    intro i
    simp only [detachList]
    by_cases hid : h.id = i
    · rw [if_pos hid]
      intro _
      exact ⟨{ h with detach_and_destroy_me := true }, List.mem_cons_self _ _, hid⟩
    · rw [if_neg hid]
      intro hz
      obtain ⟨x, hm, hx⟩ := ih i hz
      exact ⟨x, List.mem_cons_of_mem h hm, hx⟩

/-- C10: error handling of ast_framehook_detach. (1) With no framehook list it
returns -1; (2) with no entry carrying the requested id it returns -1 and the
state is unchanged; (3) otherwise it returns 0 and the only change is setting
the first matching entry's detach_and_destroy_me flag - the prefix of
non-matching entries, the suffix after the match, and the count and id
counters are all unchanged; (4) hence a second detach with the same id before
the next dispatch also returns 0. In every case it makes no callback calls
(the trace component is [] by definition of the embedding of the source). -/
theorem C10_detach_error_handling :
    (∀ (id : Nat), ast_framehook_detach none id = (-1, none, [])) ∧
    (∀ (st : FhList) (id : Nat), (∀ h ∈ st.hooks, h.id ≠ id) →
      ast_framehook_detach (some st) id = (-1, some st, [])) ∧
    (∀ (st : FhList) (id : Nat), (∃ h ∈ st.hooks, h.id = id) →
      ∃ pre x post, st.hooks = pre ++ x :: post ∧ (∀ y ∈ pre, y.id ≠ id) ∧ x.id = id ∧
        ast_framehook_detach (some st) id =
          (0, some { st with hooks := pre ++ { x with detach_and_destroy_me := true } :: post },
            [])) ∧
    (∀ (st st' : FhList) (id : Nat) (res : Int),
      ast_framehook_detach (some st) id = (res, some st', []) → res = 0 →
      (ast_framehook_detach (some st') id).1 = 0) := by
  refine ⟨fun id => rfl, ?_, ?_, ?_⟩
  · intro st id hno
    simp only [ast_framehook_detach]
    rw [detachList_no_match st.hooks id hno]
  · intro st id hex
    obtain ⟨pre, x, post, hsplit, hpre, hxid, heq⟩ := detachList_found st.hooks id hex
    refine ⟨pre, x, post, hsplit, hpre, hxid, ?_⟩
    simp only [ast_framehook_detach]
    rw [heq]
  · intro st st' id res hdet hres
    have h2 : some ({ st with hooks := (detachList st.hooks id).2 }) = some st' :=
      congrArg (fun p => p.2.1) hdet
    have h1 : (detachList st.hooks id).1 = res :=
      congrArg (fun p => p.1) hdet
    cases h2
    show (detachList (detachList st.hooks id).2 id).1 = 0
    exact detachList_fst_zero _ id
      (detachList_mem_of_zero st.hooks id (by rw [h1, hres]))

/-- C10 witness: detaching a missing id (7) fails without change, detaching id
2 flags exactly that entry, and a repeated detach of the same id still
returns 0. -/
theorem C10_detach_error_handling_witness :
    ast_framehook_detach (some c2List) 7 = (-1, some c2List, []) ∧
    (∃ pre x post, c2List.hooks = pre ++ x :: post ∧ (∀ y ∈ pre, y.id ≠ 2) ∧ x.id = 2 ∧
      ast_framehook_detach (some c2List) 2 =
        (0, some { c2List with hooks := pre ++ { x with detach_and_destroy_me := true } :: post },
          [])) ∧
    (∃ st', ast_framehook_detach (some c2List) 2 = (0, some st', []) ∧
      (ast_framehook_detach (some st') 2).1 = 0) := by
  refine ⟨C10_detach_error_handling.2.1 c2List 7 (by decide),
    C10_detach_error_handling.2.2.1 c2List 2 ?_, ?_⟩
  · exact ⟨⟨2, false, false, fun _ f => f⟩, by
      show _ ∈ [(⟨1, true, true, fun _ f => f⟩ : Hook), ⟨2, false, false, fun _ f => f⟩]
      exact List.mem_cons_of_mem _ (List.mem_cons_self _ _), rfl⟩
  · exact ⟨_, rfl, C10_detach_error_handling.2.2.2 c2List _ 2 0 rfl rfl⟩

theorem flIdCount_detach (fl : Option FhList) (id : Nat) :
    flIdCount (ast_framehook_detach fl id).2.1 = flIdCount fl := by
  cases fl <;> rfl

theorem flIdCount_push (fl : Option FhList) (frame : Nat) (ev : FhEvent) (out : PushOut)
    (h : framehook_list_push_event fl frame ev = some out) :
    flIdCount out.fl = flIdCount fl := by
  cases fl with
  | none =>
    cases h
    rfl
  | some st =>
    simp only [framehook_list_push_event] at h
    cases hpl : pushLoop ev (st.count + 1) st.hooks (List.replicate st.count false) frame with
    | none => rw [hpl] at h; cases h
    | some l =>
      rw [hpl] at h
      cases h
      rfl

theorem flIdCount_getD (fl : Option FhList) :
    flIdCount fl = (fl.getD ⟨0, 0, []⟩).id_count := by
  cases fl <;> rfl

theorem runOps_ids (ops : List FhOp) : ∀ (fl : Option FhList),
    (∀ x ∈ (runOps ops fl).2, flIdCount fl < x) ∧
    List.Pairwise (· < ·) (runOps ops fl).2 := by
  induction ops with
  | nil =>
    intro fl
    exact ⟨fun x hx => absurd hx (List.not_mem_nil x), List.Pairwise.nil⟩
  | cons op rest ih =>
    intro fl
    cases op with
    | attach i =>
      simp only [runOps]
      by_cases hv : i.version = AST_FRAMEHOOK_INTERFACE_VERSION
      · by_cases hcb : i.has_event_cb = true
        · have ha : ast_framehook_attach fl i =
              ((((fl.getD ⟨0, 0, []⟩).id_count + 1 : Nat) : Int),
                some ⟨(fl.getD ⟨0, 0, []⟩).count + 1, (fl.getD ⟨0, 0, []⟩).id_count + 1,
                  (fl.getD ⟨0, 0, []⟩).hooks ++
                    [⟨(fl.getD ⟨0, 0, []⟩).id_count + 1, false, i.hasDestroy, i.cb⟩]⟩,
                [Call.event ((fl.getD ⟨0, 0, []⟩).id_count + 1) FhEvent.ATTACHED 0]) := by
            simp only [ast_framehook_attach]
            rw [if_neg (not_not_intro hv), if_neg (by rw [hcb]; intro hcc; cases hcc)]
          rw [ha]
          have hnot : ¬(((fl.getD ⟨0, 0, []⟩).id_count + 1 : Nat) : Int) = -1 := by omega
          rw [if_neg hnot]
          obtain ⟨ihall, ihpw⟩ := ih (some ⟨(fl.getD ⟨0, 0, []⟩).count + 1,
            (fl.getD ⟨0, 0, []⟩).id_count + 1,
            (fl.getD ⟨0, 0, []⟩).hooks ++
              [⟨(fl.getD ⟨0, 0, []⟩).id_count + 1, false, i.hasDestroy, i.cb⟩]⟩)
          have hidc : flIdCount (some ⟨(fl.getD ⟨0, 0, []⟩).count + 1,
              (fl.getD ⟨0, 0, []⟩).id_count + 1,
              (fl.getD ⟨0, 0, []⟩).hooks ++
                [⟨(fl.getD ⟨0, 0, []⟩).id_count + 1, false, i.hasDestroy, i.cb⟩]⟩)
              = (fl.getD ⟨0, 0, []⟩).id_count + 1 := rfl
          rw [hidc] at ihall
          constructor
          · intro x hx
            rcases List.mem_cons.mp hx with rfl | hx'
            · rw [flIdCount_getD fl]
              omega
            · have := ihall x hx'
              rw [flIdCount_getD fl]
              omega
          · rw [List.pairwise_cons]
            refine ⟨fun b hb => ?_, ihpw⟩
            have := ihall b hb
            omega
        · have ha : ast_framehook_attach fl i = (-1, fl, []) := by
            simp only [ast_framehook_attach]
            rw [if_neg (not_not_intro hv),
              if_pos (by rw [eq_false_of_ne_true hcb]; rfl)]
          rw [ha]
          simpa using ih fl
      · have ha : ast_framehook_attach fl i = (-1, fl, []) := by
          simp only [ast_framehook_attach]
          rw [if_pos hv]
        rw [ha]
        simpa using ih fl
    | detach id =>
      simp only [runOps]
      obtain ⟨ihall, ihpw⟩ := ih (ast_framehook_detach fl id).2.1
      rw [flIdCount_detach fl id] at ihall
      exact ⟨ihall, ihpw⟩
    | push frame ev =>
      simp only [runOps]
      cases hp : framehook_list_push_event fl frame ev with
      | none => exact ih fl
      | some out =>
        obtain ⟨ihall, ihpw⟩ := ih out.fl
        rw [flIdCount_push fl frame ev out hp] at ihall
        exact ⟨ihall, ihpw⟩

/-- C8: over every sequence of attach/detach/dispatch operations on a channel
starting with no framehook list, the ids returned by the successful attach
calls are all positive and each is strictly greater than every id returned
before it (List.Pairwise with strict order); in particular no id is ever
reused, even after the hook holding it has been detached and reaped. -/
theorem C8_attach_ids_monotone :
    ∀ (ops : List FhOp),
      (∀ x ∈ (runOps ops none).2, 0 < x) ∧
      List.Pairwise (· < ·) (runOps ops none).2 := by
  intro ops
  exact ⟨fun x hx => (runOps_ids ops none).1 x hx, (runOps_ids ops none).2⟩

/-- C9 evaluation: attach two hooks to an empty list, detach id 1, dispatch one
frame. The flagged hook is reaped (one live hook, id 2, remains) but the
source never decrements the count field, which stays 2 - contradicting the
field's own comment ("the number of hooks currently present"). -/
theorem C9_count_not_decremented :
    ((runOps c9Ops none).1).map (fun st => (st.count, st.hooks.map Hook.id, st.hooks.length))
      = some (2, [2], 1) ∧ (2 : Nat) ≠ 1 := by
  exact ⟨rfl, by decide⟩

theorem clamp_eq_min (max n : Nat) : (if max > n then n else max) = min max n := by
  rcases le_or_lt max n with h | h
  · rw [if_neg (by omega), Nat.min_eq_left h]
  · rw [if_pos h, Nat.min_eq_right (by omega)]

theorem ast_dsp_getdigits_mf (dsp : DspDigits) (max : Nat) (s : mf_detect_state)
    (hmf : dsp.digitmode_mf = true) (htd : dsp.td = TdUnion.mf s) :
    ast_dsp_getdigits dsp max = some (s.digits.take (min max s.digits.length),
      { dsp with td := TdUnion.mf { s with digits := s.digits.drop (min max s.digits.length) } }) := by
  simp only [ast_dsp_getdigits]
  rw [if_pos hmf, htd]
  simp only [clamp_eq_min]

theorem ast_dsp_getdigits_dtmf (dsp : DspDigits) (max : Nat) (s : dtmf_detect_state)
    (hmf : dsp.digitmode_mf = false) (htd : dsp.td = TdUnion.dtmf s) :
    ast_dsp_getdigits dsp max = some (s.digits.take (min max s.digits.length),
      { dsp with td := TdUnion.dtmf { s with digits := s.digits.drop (min max s.digits.length) } }) := by
  simp only [ast_dsp_getdigits]
  rw [if_neg (by rw [hmf]; intro hcc; cases hcc), htd]
  simp only [clamp_eq_min]

/-- C5: for every detector state and every max, ast_dsp_getdigits returns
exactly min(max, queued) digits - the queue's prefix, in detection (FIFO)
order - removes exactly those from the front leaving the remaining suffix in
order, never returns more digits than are queued, and after draining the whole
queue an immediate second call returns zero digits and changes nothing. -/
theorem C5_getdigits_fifo :
    ∀ (dsp : DspDigits) (max : Nat) (out : List Char) (dsp' : DspDigits),
      ast_dsp_getdigits dsp max = some (out, dsp') →
      out = (dspQueue dsp).take (min max (dspQueue dsp).length) ∧
      out.length = min max (dspQueue dsp).length ∧
      dspQueue dsp' = (dspQueue dsp).drop (min max (dspQueue dsp).length) ∧
      out ++ dspQueue dsp' = dspQueue dsp ∧
      out.length ≤ (dspQueue dsp).length ∧
      ((dspQueue dsp).length ≤ max →
        ∀ max2, ast_dsp_getdigits dsp' max2 = some ([], dsp')) := by
  intro dsp max out dsp' h
  by_cases hmf : dsp.digitmode_mf = true
  · cases htd : dsp.td with
    | dtmf s =>
      rw [ast_dsp_getdigits] at h
      rw [if_pos hmf, htd] at h
      cases h
    | mf s =>
      rw [ast_dsp_getdigits_mf dsp max s hmf htd] at h
      obtain ⟨h1, h2⟩ := Prod.mk.injEq _ _ _ _ ▸ Option.some.inj h
      subst h1
      subst h2
      have hq : dspQueue dsp = s.digits := by simp [dspQueue, htd]
      have hq' : dspQueue { dsp with
          td := TdUnion.mf { s with digits := s.digits.drop (min max s.digits.length) } }
          = s.digits.drop (min max s.digits.length) := by simp [dspQueue]
      rw [hq, hq']
      refine ⟨rfl, ?_, rfl, List.take_append_drop _ _, ?_, ?_⟩
      · rw [List.length_take, Nat.min_assoc, Nat.min_self]
      · rw [List.length_take]
        omega
      · intro hlen max2
        have hmin : min max s.digits.length = s.digits.length := Nat.min_eq_right hlen
        have hnil : s.digits.drop (min max s.digits.length) = [] := by
          rw [hmin, List.drop_length]
        have := ast_dsp_getdigits_mf
          { dsp with td := TdUnion.mf { s with digits := s.digits.drop (min max s.digits.length) } }
          max2 { s with digits := s.digits.drop (min max s.digits.length) } hmf rfl
        rw [this, hnil]
        simp only [List.take_nil, List.drop_nil]
  · have hmf' : dsp.digitmode_mf = false := eq_false_of_ne_true hmf
    cases htd : dsp.td with
    | mf s =>
      rw [ast_dsp_getdigits] at h
      rw [if_neg (by rw [hmf']; intro hcc; cases hcc), htd] at h
      cases h
    | dtmf s =>
      rw [ast_dsp_getdigits_dtmf dsp max s hmf' htd] at h
      obtain ⟨h1, h2⟩ := Prod.mk.injEq _ _ _ _ ▸ Option.some.inj h
      subst h1
      subst h2
      have hq : dspQueue dsp = s.digits := by simp [dspQueue, htd]
      have hq' : dspQueue { dsp with
          td := TdUnion.dtmf { s with digits := s.digits.drop (min max s.digits.length) } }
          = s.digits.drop (min max s.digits.length) := by simp [dspQueue]
      rw [hq, hq']
      refine ⟨rfl, ?_, rfl, List.take_append_drop _ _, ?_, ?_⟩
      · rw [List.length_take, Nat.min_assoc, Nat.min_self]
      · rw [List.length_take]
        omega
      · intro hlen max2
        have hmin : min max s.digits.length = s.digits.length := Nat.min_eq_right hlen
        have hnil : s.digits.drop (min max s.digits.length) = [] := by
          rw [hmin, List.drop_length]
        have := ast_dsp_getdigits_dtmf
          { dsp with td := TdUnion.dtmf { s with digits := s.digits.drop (min max s.digits.length) } }
          max2 { s with digits := s.digits.drop (min max s.digits.length) } hmf' rfl
        rw [this, hnil]
        simp only [List.take_nil, List.drop_nil]

/-- C5 witness: draining a three-digit DTMF queue with max = 2. -/
theorem C5_getdigits_fifo_witness :
    ∃ out dsp',
      ast_dsp_getdigits ⟨false, TdUnion.dtmf ⟨0, ['1', '2', '3'], 3, 0⟩⟩ 2 = some (out, dsp') ∧
      out = ['1', '2'] ∧ dspQueue dsp' = ['3'] ∧
      out ++ dspQueue dsp' = ['1', '2', '3'] := by
  obtain ⟨h1, h2, h3, h4, h5, h6⟩ :=
    C5_getdigits_fifo ⟨false, TdUnion.dtmf ⟨0, ['1', '2', '3'], 3, 0⟩⟩ 2 _ _ rfl
  exact ⟨_, _, rfl, by rw [h1]; rfl, by rw [h3]; rfl, by rw [h4]; rfl⟩

/-- C6: both digit queues are bounded by MAX_DTMF_DIGITS = 128 characters and
never block or grow beyond that bound under any input. Whenever a confirmed
digit arrives with the queue at capacity (128 for the DTMF detector and
MAX_DTMF_DIGITS - 2 = 126 for the MF detector, both at most 128), the digit is
silently dropped, lost_digits is incremented and the queue is unchanged; below
capacity the digit is appended and lost_digits untouched; and any sequence of
confirmed digits keeps the queue length at most 128. -/
theorem C6_digit_queue_bounded :
    (∀ (s : dtmf_detect_state) (hit : Char), s.digits.length ≤ MAX_DTMF_DIGITS →
      (dtmf_store_digit s hit).digits.length ≤ MAX_DTMF_DIGITS) ∧
    (∀ (s : dtmf_detect_state) (hit : Char), ¬ s.digits.length < MAX_DTMF_DIGITS →
      (dtmf_store_digit s hit).digits = s.digits ∧
      (dtmf_store_digit s hit).lost_digits = s.lost_digits + 1) ∧
    (∀ (s : dtmf_detect_state) (hit : Char), s.digits.length < MAX_DTMF_DIGITS →
      (dtmf_store_digit s hit).digits = s.digits ++ [hit] ∧
      (dtmf_store_digit s hit).lost_digits = s.lost_digits) ∧
    (∀ (s : mf_detect_state) (hit : Char), s.digits.length ≤ MAX_DTMF_DIGITS →
      (mf_store_digit s hit).digits.length ≤ MAX_DTMF_DIGITS) ∧
    (∀ (s : mf_detect_state) (hit : Char), ¬ s.digits.length < MAX_DTMF_DIGITS - 2 →
      (mf_store_digit s hit).digits = s.digits ∧
      (mf_store_digit s hit).lost_digits = s.lost_digits + 1) ∧
    (∀ (s : mf_detect_state) (hit : Char), s.digits.length < MAX_DTMF_DIGITS - 2 →
      (mf_store_digit s hit).digits = s.digits ++ [hit] ∧
      (mf_store_digit s hit).lost_digits = s.lost_digits) ∧
    (∀ (s : dtmf_detect_state) (hits : List Char), s.digits.length ≤ MAX_DTMF_DIGITS →
      (hits.foldl dtmf_store_digit s).digits.length ≤ MAX_DTMF_DIGITS) ∧
    (∀ (s : mf_detect_state) (hits : List Char), s.digits.length ≤ MAX_DTMF_DIGITS →
      (hits.foldl mf_store_digit s).digits.length ≤ MAX_DTMF_DIGITS) := by
  have hd1 : ∀ (s : dtmf_detect_state) (hit : Char), s.digits.length ≤ MAX_DTMF_DIGITS →
      (dtmf_store_digit s hit).digits.length ≤ MAX_DTMF_DIGITS := by
    intro s hit hle
    simp only [dtmf_store_digit]
    by_cases hlt : s.digits.length < MAX_DTMF_DIGITS
    · rw [if_pos hlt]
      simp only [List.length_append, List.length_cons, List.length_nil]
      omega
    · rw [if_neg hlt]
      exact hle
  have hm1 : ∀ (s : mf_detect_state) (hit : Char), s.digits.length ≤ MAX_DTMF_DIGITS →
      (mf_store_digit s hit).digits.length ≤ MAX_DTMF_DIGITS := by
    intro s hit hle
    simp only [mf_store_digit]
    by_cases hlt : s.digits.length < MAX_DTMF_DIGITS - 2
    · rw [if_pos hlt]
      simp only [List.length_append, List.length_cons, List.length_nil]
      simp only [MAX_DTMF_DIGITS] at hlt ⊢
      omega
    · rw [if_neg hlt]
      exact hle
  refine ⟨hd1, ?_, ?_, hm1, ?_, ?_, ?_, ?_⟩
  · intro s hit hfull
    simp only [dtmf_store_digit]
    rw [if_neg hfull, if_neg hfull]
    exact ⟨rfl, rfl⟩
  · intro s hit hlt
    simp only [dtmf_store_digit]
    rw [if_pos hlt, if_pos hlt]
    exact ⟨rfl, rfl⟩
  · intro s hit hfull
    simp only [mf_store_digit]
    rw [if_neg hfull, if_neg hfull]
    exact ⟨rfl, rfl⟩
  · intro s hit hlt
    simp only [mf_store_digit]
    rw [if_pos hlt, if_pos hlt]
    exact ⟨rfl, rfl⟩
  · intro s hits
    induction hits generalizing s with
    | nil => intro h; exact h
    | cons a t ih =>
      intro h
      exact ih (dtmf_store_digit s a) (hd1 s a h)
  · intro s hits
    induction hits generalizing s with
    | nil => intro h; exact h
    | cons a t ih =>
      intro h
      exact ih (mf_store_digit s a) (hm1 s a h)

/-- C6 witness: a full DTMF queue (128 digits) drops a confirmed digit and
counts it lost; a 126-long MF queue does the same. -/
theorem C6_digit_queue_bounded_witness :
    ((dtmf_store_digit ⟨0, List.replicate 128 '1', 128, 0⟩ '5').digits
        = List.replicate 128 '1' ∧
      (dtmf_store_digit ⟨0, List.replicate 128 '1', 128, 0⟩ '5').lost_digits = 1) ∧
    ((mf_store_digit ⟨0, List.replicate 126 '1', 126, 0⟩ '5').digits
        = List.replicate 126 '1' ∧
      (mf_store_digit ⟨0, List.replicate 126 '1', 126, 0⟩ '5').lost_digits = 1) ∧
    (dtmf_store_digit ⟨0, List.replicate 128 '1', 128, 0⟩ '5').digits.length ≤ MAX_DTMF_DIGITS := by
  refine ⟨C6_digit_queue_bounded.2.1 ⟨0, List.replicate 128 '1', 128, 0⟩ '5'
      (by simp [MAX_DTMF_DIGITS]),
    C6_digit_queue_bounded.2.2.2.2.1 ⟨0, List.replicate 126 '1', 126, 0⟩ '5'
      (by simp [MAX_DTMF_DIGITS]),
    C6_digit_queue_bounded.1 ⟨0, List.replicate 128 '1', 128, 0⟩ '5'
      (by simp [MAX_DTMF_DIGITS])⟩

theorem bdScan_acc (t : List (Nat × Nat)) : ∀ (mn mx : Nat),
    (bdScan t mn mx).1 ≤ mn ∧ mx ≤ (bdScan t mn mx).2 := by
  induction t with
  | nil => intro mn mx; exact ⟨Nat.le_refl mn, Nat.le_refl mx⟩
  | cons p t ih =>
    intro mn mx
    simp only [bdScan]
    obtain ⟨h1, h2⟩ := ih (min (min mn p.1) p.2) (max (max mx p.1) p.2)
    constructor
    · exact le_trans h1 (le_trans (Nat.min_le_left _ _) (Nat.min_le_left _ _))
    · exact le_trans (le_trans (Nat.le_max_left _ _) (Nat.le_max_left _ _)) h2

theorem bdScan_bounds (t : List (Nat × Nat)) : ∀ (mn mx : Nat), ∀ p ∈ t,
    (bdScan t mn mx).1 ≤ p.1 ∧ (bdScan t mn mx).1 ≤ p.2 ∧
    p.1 ≤ (bdScan t mn mx).2 ∧ p.2 ≤ (bdScan t mn mx).2 := by
  induction t with
  | nil => intro mn mx p hp; exact absurd hp (List.not_mem_nil p)
  | cons q t ih =>
    intro mn mx p hp
    simp only [bdScan]
    rcases List.mem_cons.mp hp with rfl | hp'
    · obtain ⟨h1, h2⟩ := bdScan_acc t (min (min mn p.1) p.2) (max (max mx p.1) p.2)
      refine ⟨?_, ?_, ?_, ?_⟩
      · exact le_trans h1 (le_trans (Nat.min_le_left _ _) (Nat.min_le_right _ _))
      · exact le_trans h1 (Nat.min_le_right _ _)
      · exact le_trans (le_trans (Nat.le_max_right _ _) (Nat.le_max_left _ _)) h2
      · exact le_trans (Nat.le_max_right _ _) h2
    · exact ih (min (min mn q.1) q.2) (max (max mx q.1) q.2) p hp'

theorem bdScan_min_attain (t : List (Nat × Nat)) : ∀ (mn mx : Nat),
    (bdScan t mn mx).1 = mn ∨ ∃ p ∈ t, (bdScan t mn mx).1 = p.1 ∨ (bdScan t mn mx).1 = p.2 := by
  induction t with
  | nil => intro mn mx; exact Or.inl rfl
  | cons q t ih =>
    intro mn mx
    simp only [bdScan]
    rcases ih (min (min mn q.1) q.2) (max (max mx q.1) q.2) with h | ⟨p, hp, h⟩
    · rcases min_choice (min mn q.1) q.2 with h2 | h2
      · rcases min_choice mn q.1 with h3 | h3
        · exact Or.inl (by rw [h, h2, h3])
        · exact Or.inr ⟨q, List.mem_cons_self q t, Or.inl (by rw [h, h2, h3])⟩
      · exact Or.inr ⟨q, List.mem_cons_self q t, Or.inr (by rw [h, h2])⟩
    · exact Or.inr ⟨p, List.mem_cons_of_mem q hp, h⟩

theorem bdScan_max_attain (t : List (Nat × Nat)) : ∀ (mn mx : Nat),
    (bdScan t mn mx).2 = mx ∨ ∃ p ∈ t, (bdScan t mn mx).2 = p.1 ∨ (bdScan t mn mx).2 = p.2 := by
  induction t with
  | nil => intro mn mx; exact Or.inl rfl
  | cons q t ih =>
    intro mn mx
    simp only [bdScan]
    rcases ih (min (min mn q.1) q.2) (max (max mx q.1) q.2) with h | ⟨p, hp, h⟩
    · rcases max_choice (max mx q.1) q.2 with h2 | h2
      · rcases max_choice mx q.1 with h3 | h3
        · exact Or.inl (by rw [h, h2, h3])
        · exact Or.inr ⟨q, List.mem_cons_self q t, Or.inl (by rw [h, h2, h3])⟩
      · exact Or.inr ⟨q, List.mem_cons_self q t, Or.inr (by rw [h, h2])⟩
    · exact Or.inr ⟨p, List.mem_cons_of_mem q hp, h⟩

theorem busyVals_window (dsp : DspBusy)
    (hs : dsp.historicsilence.length = DSP_HISTORY)
    (hn : dsp.historicnoise.length = DSP_HISTORY) :
    ∀ (v : Nat), v ∈ busyVals dsp ↔ ∃ p ∈ busyWindow dsp, v = p.1 ∨ v = p.2 := by
  intro v
  have hlen : (dsp.historicsilence.drop (DSP_HISTORY - dsp.busycount)).length
      = (dsp.historicnoise.drop (DSP_HISTORY - dsp.busycount)).length := by
    rw [List.length_drop, List.length_drop, hs, hn]
  have hfst : (busyWindow dsp).map Prod.fst
      = dsp.historicsilence.drop (DSP_HISTORY - dsp.busycount) :=
    List.map_fst_zip _ _ (le_of_eq hlen)
  have hsnd : (busyWindow dsp).map Prod.snd
      = dsp.historicnoise.drop (DSP_HISTORY - dsp.busycount) :=
    List.map_snd_zip _ _ (le_of_eq hlen.symm)
  constructor
  · intro hv
    rcases List.mem_append.mp hv with hv' | hv'
    · rw [← hfst] at hv'
      obtain ⟨p, hp, hpv⟩ := List.mem_map.mp hv'
      exact ⟨p, hp, Or.inl hpv.symm⟩
    · rw [← hsnd] at hv'
      obtain ⟨p, hp, hpv⟩ := List.mem_map.mp hv'
      exact ⟨p, hp, Or.inr hpv.symm⟩
  · intro ⟨p, hp, hpv⟩
    rcases hpv with rfl | rfl
    · exact List.mem_append.mpr (Or.inl (by rw [← hfst]; exact List.mem_map_of_mem Prod.fst hp))
    · exact List.mem_append.mpr (Or.inr (by rw [← hsnd]; exact List.mem_map_of_mem Prod.snd hp))

/-- C4: ast_dsp_busydetect returns 1 exactly when busymaybe is set and the run
lengths in the last busycount slots of both histories all lie strictly between
BUSY_MIN and BUSY_MAX with pairwise spread under BUSY_THRESHOLD (equivalent to
the source's max/min formulation); every call clears busymaybe, so an
immediately repeated call returns 0 (true at most once per busymaybe-setting
transition); and the silence tracker sets busymaybe exactly on a silence/noise
transition (a block of one kind ending a nonzero run of the other kind). -/
theorem C4_busydetect_cadence :
    (∀ (dsp : DspBusy),
      1 ≤ dsp.busycount → dsp.busycount ≤ DSP_HISTORY →
      dsp.historicsilence.length = DSP_HISTORY →
      dsp.historicnoise.length = DSP_HISTORY →
      ((ast_dsp_busydetect dsp).1 = 1 ↔
        (dsp.busymaybe = true ∧
          (∀ v ∈ busyVals dsp, BUSY_MIN < v ∧ v < BUSY_MAX) ∧
          (∀ u ∈ busyVals dsp, ∀ v ∈ busyVals dsp, u < v + BUSY_THRESHOLD)))) ∧
    (∀ (dsp : DspBusy), (ast_dsp_busydetect dsp).2.busymaybe = false) ∧
    (∀ (dsp : DspBusy), (ast_dsp_busydetect (ast_dsp_busydetect dsp).2).1 = 0) ∧
    (∀ (dsp : DspBusy) (s : List Int), dsp.busymaybe = false →
      (((__ast_dsp_silence dsp s).1.busymaybe = true) ↔
        (((s.map Int.natAbs).sum / s.length < dsp.threshold ∧ dsp.totalnoise ≠ 0) ∨
          (¬ (s.map Int.natAbs).sum / s.length < dsp.threshold ∧ dsp.totalsilence ≠ 0)))) := by
  have hclear : ∀ (dsp : DspBusy), (ast_dsp_busydetect dsp).2.busymaybe = false := by
    intro dsp
    simp only [ast_dsp_busydetect]
    by_cases hb : dsp.busymaybe = true
    · rw [if_pos hb]
    · rw [if_neg hb]
      exact eq_false_of_ne_true hb
  refine ⟨?_, hclear, ?_, ?_⟩
  · intro dsp hbc1 hbc5 hs hn
    have hk1 : BUSY_MIN = 80 := rfl
    have hk2 : BUSY_MAX = 1100 := rfl
    have hk3 : BUSY_THRESHOLD = 100 := rfl
    by_cases hb : dsp.busymaybe = true
    · have hne : busyWindow dsp ≠ [] := by
        intro hnil
        have : (busyWindow dsp).length = 0 := by rw [hnil]; rfl
        rw [busyWindow, List.length_zip, List.length_drop, List.length_drop, hs, hn] at this
        simp only [Nat.min_self] at this
        omega
      obtain ⟨p₀, hp₀⟩ := List.exists_mem_of_ne_nil _ hne
      have hv₀ : p₀.1 ∈ busyVals dsp :=
        (busyVals_window dsp hs hn p₀.1).mpr ⟨p₀, hp₀, Or.inl rfl⟩
      simp only [ast_dsp_busydetect]
      rw [if_pos hb]
      constructor
      · intro hres
        have hcond : (bdScan (busyWindow dsp) 9999 0).2 - (bdScan (busyWindow dsp) 9999 0).1
              < BUSY_THRESHOLD ∧
            (bdScan (busyWindow dsp) 9999 0).2 < BUSY_MAX ∧
            BUSY_MIN < (bdScan (busyWindow dsp) 9999 0).1 := by
          by_contra hcc
          rw [if_neg hcc] at hres
          simp at hres
        obtain ⟨hspread, hmax, hmin⟩ := hcond
        refine ⟨hb, ?_, ?_⟩
        · intro v hv
          obtain ⟨p, hp, hpv⟩ := (busyVals_window dsp hs hn v).mp hv
          obtain ⟨b1, b2, b3, b4⟩ := bdScan_bounds (busyWindow dsp) 9999 0 p hp
          rcases hpv with rfl | rfl
          · exact ⟨by omega, by omega⟩
          · exact ⟨by omega, by omega⟩
        · intro u hu v hv
          obtain ⟨pu, hpu, hpuv⟩ := (busyVals_window dsp hs hn u).mp hu
          obtain ⟨pv, hpv, hpvv⟩ := (busyVals_window dsp hs hn v).mp hv
          obtain ⟨bu1, bu2, bu3, bu4⟩ := bdScan_bounds (busyWindow dsp) 9999 0 pu hpu
          obtain ⟨bv1, bv2, bv3, bv4⟩ := bdScan_bounds (busyWindow dsp) 9999 0 pv hpv
          rcases hpuv with rfl | rfl <;> rcases hpvv with rfl | rfl <;> omega
      · intro ⟨_, hband, hspread⟩
        obtain ⟨b1, b2, b3, b4⟩ := bdScan_bounds (busyWindow dsp) 9999 0 p₀ hp₀
        obtain ⟨hv₀min, hv₀max⟩ := hband p₀.1 hv₀
        have hmnv : (bdScan (busyWindow dsp) 9999 0).1 ∈ busyVals dsp := by
          rcases bdScan_min_attain (busyWindow dsp) 9999 0 with h | ⟨p, hp, h⟩
          · omega
          · exact (busyVals_window dsp hs hn _).mpr ⟨p, hp, by tauto⟩
        have hmxv : (bdScan (busyWindow dsp) 9999 0).2 ∈ busyVals dsp := by
          rcases bdScan_max_attain (busyWindow dsp) 9999 0 with h | ⟨p, hp, h⟩
          · omega
          · exact (busyVals_window dsp hs hn _).mpr ⟨p, hp, by tauto⟩
        obtain ⟨hmn1, hmn2⟩ := hband _ hmnv
        obtain ⟨hmx1, hmx2⟩ := hband _ hmxv
        have hsp := hspread _ hmxv _ hmnv
        have hcond : (bdScan (busyWindow dsp) 9999 0).2 - (bdScan (busyWindow dsp) 9999 0).1
              < BUSY_THRESHOLD ∧
            (bdScan (busyWindow dsp) 9999 0).2 < BUSY_MAX ∧
            BUSY_MIN < (bdScan (busyWindow dsp) 9999 0).1 := ⟨by omega, by omega, by omega⟩
        rw [if_pos hcond]
    · simp only [ast_dsp_busydetect]
      rw [if_neg hb]
      constructor
      · intro hcc
        simp at hcc
      · intro ⟨hbb, _⟩
        exact absurd hbb hb
  · intro dsp
    have haux : ∀ (d : DspBusy), d.busymaybe = false → (ast_dsp_busydetect d).1 = 0 := by
      intro d hd
      simp only [ast_dsp_busydetect]
      rw [if_neg (by rw [hd]; intro hcc; cases hcc)]
    exact haux _ (hclear dsp)
  · intro dsp s hbm
    simp only [__ast_dsp_silence]
    by_cases hacc : (s.map Int.natAbs).sum / s.length < dsp.threshold
    · rw [if_pos hacc]
      by_cases hnz : dsp.totalnoise ≠ 0
      · rw [if_pos hnz]
        simp only [hacc, hnz]
        tauto
      · rw [if_neg hnz]
        simp only [hbm]
        constructor
        · intro hcc
          cases hcc
        · intro h
          rcases h with ⟨_, hx⟩ | ⟨hx, _⟩
          · exact absurd hx hnz
          · exact absurd hacc hx
    · rw [if_neg hacc]
      by_cases hsz : dsp.totalsilence ≠ 0
      · rw [if_pos hsz]
        simp only [hacc, hsz]
        tauto
      · rw [if_neg hsz]
        simp only [hbm]
        constructor
        · intro hcc
          cases hcc
        · intro h
          rcases h with ⟨hx, _⟩ | ⟨_, hx⟩
          · exact absurd hx hacc
          · exact absurd hx hsz

/-- C4 witness: the cadence characterization instantiated at a state whose
last three history slots of both runs all lie in (80, 1100) with spread
under 100, so busydetect fires, and an immediate second call returns 0. -/
theorem C4_busydetect_cadence_witness :
    ((ast_dsp_busydetect c4Dsp).1 = 1 ↔
      (c4Dsp.busymaybe = true ∧
        (∀ v ∈ busyVals c4Dsp, BUSY_MIN < v ∧ v < BUSY_MAX) ∧
        (∀ u ∈ busyVals c4Dsp, ∀ v ∈ busyVals c4Dsp, u < v + BUSY_THRESHOLD))) ∧
    (ast_dsp_busydetect (ast_dsp_busydetect c4Dsp).2).1 = 0 := by
  exact ⟨C4_busydetect_cadence.1 c4Dsp (by decide) (by decide) (by decide) (by decide),
    C4_busydetect_cadence.2.2.1 c4Dsp⟩

theorem progressLoopF_len_zero (oracle : Nat → ProgClass) (fuel : Nat) (dsp : DspProg)
    (stale : Option Nat) (res bix : Nat) :
    progressLoopF oracle fuel dsp stale res 0 bix = some (dsp, res) := by
  cases fuel <;> simp [progressLoopF]

/-- C3: the call-progress classifier. (1) The state machine changes state only
at 183-sample block boundaries: feeding fewer samples than complete a block
leaves tstate, tcount and the features untouched and returns no result.
(2) A block emits a control result only when the same newstate has been held
for COUNT_THRESH = 3 consecutive blocks (tcount reaches exactly 3 with the
state unchanged through the block), and the result is BUSY, ANSWER, RINGING or
CONGESTION matching the confirmed state. (3) Emitting BUSY, ANSWER or
CONGESTION clears the call-progress feature flag (so the caller gating on it
reports each terminal result at most once per attachment), while emitting
RINGING leaves the features unchanged (RINGING is reportable repeatedly, as
the third concrete run shows). (4) The newstate local always holds the updated
tstate after a block, and under that invariant (5) SPECIAL2 is entered only
from SPECIAL1 and SPECIAL3 only from SPECIAL2. (6)-(8) Concrete runs: two
ringback blocks yield no result, three yield RINGING, and after a RINGING
report a silence cadence followed by three more ringback blocks yields RINGING
again with the feature still set. -/
theorem C3_call_progress_state_machine :
    (∀ (dsp : DspProg) (len : Nat) (oracle : Nat → ProgClass),
      dsp.gsamps + len < GSAMP_SIZE →
      __ast_dsp_call_progress dsp len oracle
        = some ({ dsp with gsamps := dsp.gsamps + len }, 0)) ∧
    (∀ (dsp : DspProg) (stale : Option Nat) (c : ProgClass) (st' : DspProg)
        (stale' emit : Option Nat) (r : Nat),
      progressBlock dsp stale c = some (st', stale', emit) → emit = some r →
      st'.tcount = COUNT_THRESH ∧ st'.tstate = dsp.tstate ∧ dsp.tcount + 1 = COUNT_THRESH ∧
      ((r = AST_CONTROL_BUSY ∧ dsp.tstate = TONE_STATE_BUSY) ∨
        (r = AST_CONTROL_ANSWER ∧ dsp.tstate = TONE_STATE_TALKING) ∨
        (r = AST_CONTROL_RINGING ∧ dsp.tstate = TONE_STATE_RINGING) ∨
        (r = AST_CONTROL_CONGESTION ∧ dsp.tstate = TONE_STATE_SPECIAL3))) ∧
    (∀ (dsp : DspProg) (stale : Option Nat) (c : ProgClass) (st' : DspProg)
        (stale' emit : Option Nat) (r : Nat),
      progressBlock dsp stale c = some (st', stale', emit) → emit = some r →
      (r ≠ AST_CONTROL_RINGING → st'.features.call_progress = false) ∧
      (r = AST_CONTROL_RINGING → st'.features = dsp.features)) ∧
    (∀ (dsp : DspProg) (stale : Option Nat) (c : ProgClass) (st' : DspProg)
        (stale' emit : Option Nat),
      progressBlock dsp stale c = some (st', stale', emit) →
      stale' = some st'.tstate) ∧
    (∀ (dsp : DspProg) (stale : Option Nat) (c : ProgClass) (st' : DspProg)
        (stale' emit : Option Nat),
      progressBlock dsp stale c = some (st', stale', emit) →
      (stale = none ∨ stale = some dsp.tstate) →
      (st'.tstate = TONE_STATE_SPECIAL2 →
        dsp.tstate = TONE_STATE_SPECIAL2 ∨ dsp.tstate = TONE_STATE_SPECIAL1) ∧
      (st'.tstate = TONE_STATE_SPECIAL3 →
        dsp.tstate = TONE_STATE_SPECIAL3 ∨ dsp.tstate = TONE_STATE_SPECIAL2)) ∧
    (__ast_dsp_call_progress freshProg 366 oracleRing
      = some (⟨TONE_STATE_RINGING, 2, ⟨false, false, false, true⟩, 0⟩, 0)) ∧
    (__ast_dsp_call_progress freshProg 549 oracleRing
      = some (⟨TONE_STATE_RINGING, 3, ⟨false, false, false, true⟩, 0⟩, AST_CONTROL_RINGING)) ∧
    (__ast_dsp_call_progress ⟨TONE_STATE_RINGING, 3, ⟨false, false, false, true⟩, 0⟩ 1098
        oracleMix
      = some (⟨TONE_STATE_RINGING, 3, ⟨false, false, false, true⟩, 0⟩,
          AST_CONTROL_RINGING)) := by
  refine ⟨?_, ?_, ?_, ?_, ?_, by decide, by decide, by decide⟩
  · intro dsp len oracle hlt
    cases len with
    | zero => simp [__ast_dsp_call_progress, progressLoopF]
    | succ n =>
      simp only [__ast_dsp_call_progress, progressLoopF]
      rw [if_neg (Nat.succ_ne_zero n)]
      have hgs : dsp.gsamps + (n + 1) < GSAMP_SIZE := hlt
      have hpass : min (n + 1) (GSAMP_SIZE - dsp.gsamps) = n + 1 :=
        Nat.min_eq_left (by omega)
      rw [hpass]
      rw [if_neg (Nat.succ_ne_zero n)]
      rw [if_neg (by omega)]
      rw [Nat.sub_self]
      exact progressLoopF_len_zero oracle n _ none 0 0
  · intro dsp stale c st' stale' emit r h hemit
    simp only [progressBlock] at h
    cases hcn : classNewstate dsp.tstate c stale with
    | none => rw [hcn] at h; cases h
    | some ns =>
      rw [hcn, Option.map_some'] at h
      have h' := Option.some.inj h
      split_ifs at h' with h1 h2 h3 h4 h5 h6
      · cases h'; cases hemit
        exact ⟨h2, rfl, h2, Or.inl ⟨rfl, h3⟩⟩
      · cases h'; cases hemit
        exact ⟨h2, rfl, h2, Or.inr (Or.inl ⟨rfl, h4⟩)⟩
      · cases h'; cases hemit
        exact ⟨h2, rfl, h2, Or.inr (Or.inr (Or.inl ⟨rfl, h5⟩))⟩
      · cases h'; cases hemit
        exact ⟨h2, rfl, h2, Or.inr (Or.inr (Or.inr ⟨rfl, h6⟩))⟩
      · cases h'; cases hemit
      · cases h'; cases hemit
      · cases h'; cases hemit
  · intro dsp stale c st' stale' emit r h hemit
    simp only [progressBlock] at h
    cases hcn : classNewstate dsp.tstate c stale with
    | none => rw [hcn] at h; cases h
    | some ns =>
      rw [hcn, Option.map_some'] at h
      have h' := Option.some.inj h
      split_ifs at h' with h1 h2 h3 h4 h5 h6
      · cases h'; cases hemit
        exact ⟨fun _ => rfl, fun hcc => absurd hcc (by decide)⟩
      · cases h'; cases hemit
        exact ⟨fun _ => rfl, fun hcc => absurd hcc (by decide)⟩
      · cases h'; cases hemit
        exact ⟨fun hcc => absurd rfl hcc, fun _ => rfl⟩
      · cases h'; cases hemit
        exact ⟨fun _ => rfl, fun hcc => absurd hcc (by decide)⟩
      · cases h'; cases hemit
      · cases h'; cases hemit
      · cases h'; cases hemit
  · intro dsp stale c st' stale' emit h
    simp only [progressBlock] at h
    cases hcn : classNewstate dsp.tstate c stale with
    | none => rw [hcn] at h; cases h
    | some ns =>
      rw [hcn, Option.map_some'] at h
      have h' := Option.some.inj h
      split_ifs at h' with h1 h2 h3 h4 h5 h6 <;> cases h'
      · rw [h1]
      · rw [h1]
      · rw [h1]
      · rw [h1]
      · rw [h1]
      · rw [h1]
      · rfl
  · intro dsp stale c st' stale' emit h hstale
    simp only [progressBlock] at h
    cases hcn : classNewstate dsp.tstate c stale with
    | none => rw [hcn] at h; cases h
    | some ns =>
      rw [hcn, Option.map_some'] at h
      have h' := Option.some.inj h
      by_cases h1 : ns = dsp.tstate
      · rw [if_pos h1] at h'
        split_ifs at h' <;> cases h' <;>
          exact ⟨fun hx => Or.inl hx, fun hx => Or.inl hx⟩
      · rw [if_neg h1] at h'
        cases h'
        cases c with
        | busy =>
          simp only [classNewstate] at hcn
          cases hcn
          exact ⟨fun hx => absurd (show TONE_STATE_BUSY = TONE_STATE_SPECIAL2 from hx) (by decide),
            fun hx => absurd (show TONE_STATE_BUSY = TONE_STATE_SPECIAL3 from hx) (by decide)⟩
        | ringing =>
          simp only [classNewstate] at hcn
          cases hcn
          exact ⟨fun hx => absurd (show TONE_STATE_RINGING = TONE_STATE_SPECIAL2 from hx) (by decide),
            fun hx => absurd (show TONE_STATE_RINGING = TONE_STATE_SPECIAL3 from hx) (by decide)⟩
        | dialtone =>
          simp only [classNewstate] at hcn
          cases hcn
          exact ⟨fun hx => absurd (show TONE_STATE_DIALTONE = TONE_STATE_SPECIAL2 from hx) (by decide),
            fun hx => absurd (show TONE_STATE_DIALTONE = TONE_STATE_SPECIAL3 from hx) (by decide)⟩
        | special1 =>
          simp only [classNewstate] at hcn
          cases hcn
          exact ⟨fun hx => absurd (show TONE_STATE_SPECIAL1 = TONE_STATE_SPECIAL2 from hx) (by decide),
            fun hx => absurd (show TONE_STATE_SPECIAL1 = TONE_STATE_SPECIAL3 from hx) (by decide)⟩
        | talking =>
          simp only [classNewstate] at hcn
          cases hcn
          exact ⟨fun hx => absurd (show TONE_STATE_TALKING = TONE_STATE_SPECIAL2 from hx) (by decide),
            fun hx => absurd (show TONE_STATE_TALKING = TONE_STATE_SPECIAL3 from hx) (by decide)⟩
        | silence =>
          simp only [classNewstate] at hcn
          cases hcn
          exact ⟨fun hx => absurd (show TONE_STATE_SILENCE = TONE_STATE_SPECIAL2 from hx) (by decide),
            fun hx => absurd (show TONE_STATE_SILENCE = TONE_STATE_SPECIAL3 from hx) (by decide)⟩
        | f1400 =>
          simp only [classNewstate] at hcn
          by_cases hts : dsp.tstate = TONE_STATE_SPECIAL1
          · rw [if_pos hts] at hcn
            cases hcn
            exact ⟨fun _ => Or.inr hts,
              fun hx => absurd (show TONE_STATE_SPECIAL2 = TONE_STATE_SPECIAL3 from hx) (by decide)⟩
          · rw [if_neg hts] at hcn
            rcases hstale with rfl | hst
            · cases hcn
            · rw [hst] at hcn
              cases hcn
              exact absurd rfl h1
        | f1800 =>
          simp only [classNewstate] at hcn
          by_cases hts : dsp.tstate = TONE_STATE_SPECIAL2
          · rw [if_pos hts] at hcn
            cases hcn
            exact ⟨fun hx => absurd (show TONE_STATE_SPECIAL3 = TONE_STATE_SPECIAL2 from hx) (by decide),
              fun _ => Or.inr hts⟩
          · rw [if_neg hts] at hcn
            rcases hstale with rfl | hst
            · cases hcn
            · rw [hst] at hcn
              cases hcn
              exact absurd rfl h1

/-- C3 witness: the block-level characterization instantiated at a busy block
confirming the BUSY state (third consecutive block), plus the below-boundary
conjunct at 100 samples. -/
theorem C3_call_progress_state_machine_witness :
    ∃ st' stale' emit,
      progressBlock ⟨TONE_STATE_BUSY, 2, ⟨false, false, false, true⟩, 0⟩ none ProgClass.busy
        = some (st', stale', emit) ∧
      st'.tcount = COUNT_THRESH ∧ st'.tstate = TONE_STATE_BUSY ∧
      st'.features.call_progress = false ∧ stale' = some st'.tstate ∧
      (st'.tstate = TONE_STATE_SPECIAL2 →
        TONE_STATE_BUSY = TONE_STATE_SPECIAL2 ∨ TONE_STATE_BUSY = TONE_STATE_SPECIAL1) ∧
      __ast_dsp_call_progress freshProg 100 oracleRing
        = some ({ freshProg with gsamps := 100 }, 0) := by
  obtain ⟨ht1, ht2, _, _⟩ := C3_call_progress_state_machine.2.1
    ⟨TONE_STATE_BUSY, 2, ⟨false, false, false, true⟩, 0⟩ none ProgClass.busy
    _ _ _ AST_CONTROL_BUSY rfl rfl
  obtain ⟨hf, _⟩ := C3_call_progress_state_machine.2.2.1
    ⟨TONE_STATE_BUSY, 2, ⟨false, false, false, true⟩, 0⟩ none ProgClass.busy
    _ _ _ AST_CONTROL_BUSY rfl rfl
  have hst := C3_call_progress_state_machine.2.2.2.1
    ⟨TONE_STATE_BUSY, 2, ⟨false, false, false, true⟩, 0⟩ none ProgClass.busy
    _ _ _ rfl
  have hsp := C3_call_progress_state_machine.2.2.2.2.1
    ⟨TONE_STATE_BUSY, 2, ⟨false, false, false, true⟩, 0⟩ none ProgClass.busy
    _ _ _ rfl (Or.inl rfl)
  exact ⟨_, _, _, rfl, ht1, ht2, hf (by decide), hst, hsp.1,
    C3_call_progress_state_machine.1 freshProg 100 oracleRing (by decide)⟩
